import Mathlib

set_option maxHeartbeats 1600000

/-!
Verification development for the acebase-ipc-server router
(source: src/server.ts, modelled here as a shallow embedding).

JavaScript strings are modelled as lists of characters (`JStr`), JavaScript
string operations (`slice`, `indexOf`, `split`, `padStart`, `startsWith`)
are reproduced with their exact semantics including negative-index slicing,
and the single-threaded event loop of the server is modelled as a step
function on an explicit server state, one step per transport or HTTP event.
`setTimeout` callbacks are modelled by attaching the fire time to each
pending timer and running every timer that is strictly due before the next
event is processed, which is the idealized behaviour of the Node event loop.
-/

/-- JavaScript strings, modelled as lists of characters. -/
abbrev JStr := List Char

/-- Coercion from Lean string literals into the JavaScript string model. -/
def jstr (s : String) : JStr := s.toList

/-- Index of the first occurrence of a character, `none` when absent.
Helper for the model of `String.prototype.indexOf`. -/
def firstIdx (c : Char) : JStr → Option Nat
  | [] => none
  | x :: xs => if x = c then some 0 else (firstIdx c xs).map (fun i => i + 1)

/-- Models `msg.indexOf(c)` of JavaScript: first index, or `-1` when absent. -/
def jsIndexOf (s : JStr) (c : Char) : Int :=
  match firstIdx c s with
  | some i => (i : Int)
  | none => -1

/-- Models `s.slice(a, b)` of JavaScript: negative indices count from the
end, indices are clamped to `[0, length]`, and an empty string results when
the normalized start is not below the normalized end. -/
def jsSlice (s : JStr) (a b : Int) : JStr :=
  (s.take ((if b < 0 then max ((s.length : Int) + b) 0 else min b (s.length : Int)).toNat)).drop
    ((if a < 0 then max ((s.length : Int) + a) 0 else min a (s.length : Int)).toNat)

/-- Models lines 307-312 of `handleIncomingMessage` in src/server.ts: when the
frame starts with `to:` the recipient is `msg.slice(3, msg.indexOf(';'))` and
the forwarded body is `msg.slice(msg.indexOf(';') + 1)`; otherwise the
recipient stays empty and the body is the whole frame.  Note that when the
frame has no `;` at all, `indexOf` yields `-1`, so the recipient is
`msg.slice(3, -1)` (everything between the tag and the final character) and
the body is `msg.slice(0)`, the entire original frame. -/
def parseTo (msg : JStr) : JStr × JStr :=
  if msg.take 3 = jstr "to:" then
    (jsSlice msg 3 (jsIndexOf msg ';'), jsSlice msg (jsIndexOf msg ';' + 1) msg.length)
  else ([], msg)

/-- Digit characters of `Number.prototype.toString(36)`: `0-9` then `a-z`. -/
def b36Char (n : Nat) : Char :=
  if n < 10 then Char.ofNat (48 + n) else Char.ofNat (87 + n)

/-- Base-36 rendering of a natural number, as produced by
`n.toString(36)` in JavaScript (for natural `n`). -/
def natToB36 (n : Nat) : JStr :=
  if h : n < 36 then [b36Char n]
  else natToB36 (n / 36) ++ [b36Char (n % 36)]
termination_by n
decreasing_by
  exact Nat.div_lt_self (by omega) (by omega)

/-- Models `s.padStart(8, '0')` of JavaScript: left-pad with zeros up to
eight characters; longer strings are returned unchanged. -/
def pad8 (s : JStr) : JStr := List.replicate (8 - s.length) '0' ++ s

/-- The modulus `36 ^ 8` used by `generateID` (`_maxNr` in src/server.ts). -/
def maxNr : Nat := 36 ^ 8

/-- Models the update of the module-level `_idSequence` counter in
`generateID` (src/server.ts lines 354-357): pre-increment, resetting to `0`
when the incremented value reaches `36 ^ 8`. -/
def nextSeq (s : Nat) : Nat := if s + 1 = maxNr then 0 else s + 1

/-- Models `generateID` (src/server.ts lines 356-362).  The impure inputs
are passed explicitly: `now` is `Date.now()`, `seq` is the value of
`_idSequence` before the call, and `rand` is `Math.floor(Math.random() *
_maxNr)` (hence below `36 ^ 8`).  The result is the generated id; the
caller stores `nextSeq seq` back into the sequence state. -/
def generateID (now seq rand : Nat) : JStr :=
  pad8 (natToB36 now) ++ pad8 (natToB36 (nextSeq seq)) ++ pad8 (natToB36 rand)

/-- Character class of base-36 digits (`0-9`, `a-z`). -/
def isB36 (c : Char) : Prop := c.toNat ∈ Finset.Icc 48 57 ∨ c.toNat ∈ Finset.Icc 97 122

instance (c : Char) : Decidable (isB36 c) := by
  unfold isB36; infer_instance

/-! ## Data model of the server -/

/-- The configuration fields consulted by the routing logic
(`AceBaseIPCServerConfig` in src/server.ts; `host`, `port` and `ssl` only
affect socket binding and are not part of the routing behaviour).
`maxPayload` is stored after the `start()` defaulting to 16384. -/
structure Config where
  maxPayload : Nat
  token : Option JStr
deriving DecidableEq

/-- One registered client (`AceBaseIPCClient` in src/server.ts).  The
`ws` transport handle is modelled by a numeric socket identity `handle`;
`connected` is the admission timestamp in milliseconds. -/
structure Client where
  id : JStr
  dbname : JStr
  connected : Nat
  handle : Nat
deriving DecidableEq

/-- The query parameters consulted by the handlers, as produced by
`parseQuery` (src/server.ts line 349): a missing key yields JavaScript
`undefined`, modelled as `none`. -/
structure Query where
  id : Option JStr
  v : Option JStr
  t : Option JStr
  msg : Option JStr
deriving DecidableEq

/-- The `clients` registry: database name to ordered client list
(insertion order), as a JavaScript object is enumerated. -/
abbrev Registry := List (JStr × List Client)

/-- Topic subscriptions of the live sockets: `(handle, topic)` pairs. -/
abbrev Subs := List (Nat × JStr)

/-- Observable effects of processing one event. -/
inductive Act where
  /-- A frame handed to `ws.send` for the socket `handle`. -/
  | deliver (handle : Nat) (frame : JStr)
  /-- `ws.close()` invoked on the socket `handle`. -/
  | closeTransport (handle : Nat)
  /-- The client on socket `handle` was appended to the registry
  (`clients.push(client)`, src/server.ts line 172). -/
  | accept (handle : Nat)
  /-- An HTTP response with the given status line and body. -/
  | httpResp (status : JStr) (body : JStr)
  /-- A `console.warn` for an unknown sender. -/
  | warn
deriving DecidableEq

/-- Whole-server state.  `largeMessages` is the spill store
(src/server.ts line 299), `timers` are the pending `setTimeout` deletions
as `(fire time, slot id)` pairs, and `idSeq` is the module-level
`_idSequence`. -/
structure ServerState where
  registry : Registry
  largeMessages : List (JStr × JStr)
  timers : List (Nat × JStr)
  subs : Subs
  idSeq : Nat
deriving DecidableEq

/-- The server starts with no groups, no spilled messages and sequence 0. -/
def initState : ServerState :=
  { registry := [], largeMessages := [], timers := [], subs := [], idSeq := 0 }

/-! ## Registry operations -/

/-- Models `if (!(dbname in this.clients)) this.clients[dbname] = []`
(the side effect of `getClients`, src/server.ts lines 68-71). -/
def ensureGroup (reg : Registry) (db : JStr) : Registry :=
  if db ∈ reg.map (fun e => e.1) then reg else reg ++ [(db, [])]

/-- Models the read `this.clients[dbname]` after `ensureGroup`. -/
def findGroup (reg : Registry) (db : JStr) : List Client :=
  match reg.find? (fun e => decide (e.1 = db)) with
  | some e => e.2
  | none => []

/-- Write a group's client list back (the in-place array mutation). -/
def setGroup (reg : Registry) (db : JStr) (cs : List Client) : Registry :=
  reg.map (fun e => if e.1 = db then (db, cs) else e)

/-- `ensureGroup` applied to a server state. -/
def ensureReg (st : ServerState) (db : JStr) : ServerState :=
  { st with registry := ensureGroup st.registry db }

/-- All clients across all groups, in registry order. -/
def clientsOf (reg : Registry) : List Client :=
  reg.foldr (fun e acc => e.2 ++ acc) []

/-- Remove the first element satisfying the predicate (the
`findIndex` / `splice(index, 1)` pair in the close handler). -/
def removeFirst (p : Client → Bool) : List Client → List Client
  | [] => []
  | c :: cs => if p c then cs else c :: removeFirst p cs

/-! ## Topics and publish/subscribe -/

/-- The global topic `'all'` that every socket subscribes to on open
(src/server.ts line 181); `connect:` and `disconnect:` notifications are
published on it. -/
def topicAll : JStr := ['a', 'l', 'l']

/-- The per-client broadcast topic `from-<dbname>-<id>`
(src/server.ts lines 165, 168, 340). -/
def fromTopic (db i : JStr) : JStr :=
  'f' :: 'r' :: 'o' :: 'm' :: '-' :: (db ++ '-' :: i)

/-- `ws.subscribe(topic)`: uWebSockets subscriptions are idempotent. -/
def subAdd (subs : Subs) (h : Nat) (t : JStr) : Subs :=
  if (h, t) ∈ subs then subs else subs ++ [(h, t)]

/-- `app.publish(topic, frame)`: deliver to every subscriber. -/
def publishApp (subs : Subs) (topic frame : JStr) : List Act :=
  (subs.filter (fun p => decide (p.2 = topic))).map (fun p => Act.deliver p.1 frame)

/-- `ws.publish(topic, frame)`: deliver to every subscriber except the
publishing socket itself. -/
def publishWs (subs : Subs) (h : Nat) (topic frame : JStr) : List Act :=
  (subs.filter (fun p => decide (p.2 = topic ∧ p.1 ≠ h))).map
    (fun p => Act.deliver p.1 frame)

/-- The cross subscriptions installed in the `open` handler
(src/server.ts lines 163-169): for every pre-existing client of the group,
the newcomer (socket `h`) subscribes to `from-<db>-<client.id>` and the
pre-existing client subscribes to `from-<db>-<cid>`. -/
def crossSubs (db cid : JStr) (h : Nat) : List Client → Subs → Subs
  | [], subs => subs
  | c :: cs, subs =>
      crossSubs db cid h cs
        (subAdd (subAdd subs h (fromTopic db c.id)) c.handle (fromTopic db cid))

/-! ## Large-message store and timers -/

/-- JavaScript object assignment `this.largeMessages[id] = msg`. -/
def putSlot (ms : List (JStr × JStr)) (k v : JStr) : List (JStr × JStr) :=
  ms.filter (fun kv => decide (kv.1 ≠ k)) ++ [(k, v)]

/-- JavaScript object read `this.largeMessages[k]`, `none` when absent. -/
def lookupSlot (ms : List (JStr × JStr)) (k : JStr) : Option JStr :=
  (ms.find? (fun kv => decide (kv.1 = k))).map (fun kv => kv.2)

/-- JavaScript `delete this.largeMessages[k]`. -/
def removeSlot (ms : List (JStr × JStr)) (k : JStr) : List (JStr × JStr) :=
  ms.filter (fun kv => decide (kv.1 ≠ k))

/-- Whether some pending timer for slot `idv` is strictly due at `now`. -/
def dueFor (timers : List (Nat × JStr)) (now : Nat) (idv : JStr) : Bool :=
  timers.any (fun t => decide (t.1 < now) && decide (t.2 = idv))

/-- Run every `setTimeout` deletion whose fire time is strictly before the
current time: the event loop services due timer callbacks before the next
I/O event (src/server.ts lines 319-321 register the callbacks). -/
def fireTimers (st : ServerState) (now : Nat) : ServerState :=
  { st with
    largeMessages := st.largeMessages.filter (fun kv => ! dueFor st.timers now kv.1),
    timers := st.timers.filter (fun t => ! decide (t.1 < now)) }

/-! ## Handshake validation -/

/-- `env.v.split('.')[0]`: the text before the first dot. -/
def majorOf (v : JStr) : JStr := v.takeWhile (fun c => decide (c ≠ '.'))

/-- The `409` status line, with JavaScript template interpolation of a
possibly `undefined` version value. -/
def err409 (v : Option JStr) : JStr :=
  jstr "409 Unsupported client IPC version \"" ++ v.getD (jstr "undefined")
    ++ jstr "\". Update acebase-ipc-server package"

/-- The `500` status line for an invalid client id. -/
def err500 (i : Option JStr) : JStr :=
  jstr "500 Invalid IPC client id " ++ i.getD (jstr "undefined")

/-- The `403` status line for a token mismatch. -/
def err403 : JStr := jstr "403 Unauthorized"

/-- `typeof env.v === 'string' && env.v.split('.')[0] === '1'`. -/
def versionOkB (v : Option JStr) : Bool :=
  match v with
  | some s => decide (majorOf s = jstr "1")
  | none => false

/-- `typeof env.id === 'string' && env.id.length >= 5`. -/
def idOkB (i : Option JStr) : Bool :=
  match i with
  | some s => decide (5 ≤ s.length)
  | none => false

/-- `typeof config.token === 'string' && env.t !== config.token`. -/
def tokenBadB (cfg : Config) (t : Option JStr) : Bool :=
  match cfg.token with
  | some tok => decide (t ≠ some tok)
  | none => false

/-- The validation chain of the `upgrade` handler (src/server.ts lines
104-121): version first, then id, then token; `none` means the connection
is admitted, `some err` is the status line written back without upgrading. -/
def upgradeCheck (cfg : Config) (q : Query) : Option JStr :=
  if versionOkB q.v = false then some (err409 q.v)
  else if idOkB q.id = false then some (err500 q.id)
  else if tokenBadB cfg q.t then some err403
  else none

/-! ## Frames -/

/-- `'welcome:' + JSON.stringify({maxPayload: config.maxPayload})`. -/
def welcomeFrame (cfg : Config) : JStr :=
  jstr "welcome:\x7b\"maxPayload\":" ++ jstr (Nat.repr cfg.maxPayload) ++ jstr "\x7d"

/-- The string branch of `AceBaseIPCClient.sendMessage` (src/server.ts
lines 152-158): `typeof msg === 'string' ? msg : 'msg:' + JSON.stringify(msg)`.
`handleIncomingMessage` only ever forwards decoded text, i.e. strings, so
the data put on the wire is the body unchanged: the `msg:` branch is
reachable for non-string payloads only. -/
def sendMessageData (s : JStr) : JStr := s

/-- `JSON.stringify` of the `/clients` response entries, for ids without
characters that need JSON escaping (ids and timestamps are produced
unescaped by the source). -/
def clientJson (c : Client) : JStr :=
  jstr "\x7b\"id\":\"" ++ c.id ++ jstr "\",\"connected\":"
    ++ jstr (Nat.repr c.connected) ++ jstr "\x7d"

/-- Comma-join for the JSON array rendering. -/
def joinComma : List JStr → JStr
  | [] => []
  | x :: xs =>
    match xs with
    | [] => x
    | _ :: _ => x ++ jstr "," ++ joinComma xs

/-- The body of the `GET /:dbname/clients` response
(src/server.ts lines 207-212). -/
def clientsJson (cs : List Client) : JStr :=
  jstr "[" ++ joinComma (cs.map clientJson) ++ jstr "]"

/-! ## Event handlers -/

/-- The websocket `close` handler (src/server.ts lines 183-192) together
with the transport dropping the dead socket's topic subscriptions: look the
socket up by transport identity in its group, splice it out when found, and
publish `disconnect:<id>` on the global `all` topic.  When the socket is
not registered (a second close for the same transport), nothing is
published. -/
def closeSocket (st : ServerState) (db : JStr) (h : Nat) : ServerState × List Act :=
  match (findGroup (ensureGroup st.registry db) db).find? (fun c => decide (c.handle = h)) with
  | some cl =>
      ({ st with
          registry := setGroup (ensureGroup st.registry db) db
            (removeFirst (fun c => decide (c.handle = h))
              (findGroup (ensureGroup st.registry db) db)),
          subs := st.subs.filter (fun p => decide (p.1 ≠ h)) },
       publishApp (st.subs.filter (fun p => decide (p.1 ≠ h))) topicAll
         (jstr "disconnect:" ++ cl.id))
  | none =>
      ({ st with
          registry := ensureGroup st.registry db,
          subs := st.subs.filter (fun p => decide (p.1 ≠ h)) }, [])

/-- The body of the `open` handler (src/server.ts lines 145-182), applied
to a state in which the group already exists and no client of the group
carries `cid` any more: cross-subscribe the newcomer with every group
member, append the new client, send `welcome:`, publish `connect:<cid>` on
`all` (the newcomer is not yet subscribed to `all` at that point), then
subscribe the newcomer to `all`. -/
def openAdmit (cfg : Config) (st : ServerState) (db cid : JStr)
    (h now : Nat) : ServerState × List Act :=
  ({ st with
      registry := setGroup st.registry db
        (findGroup st.registry db ++ [{ id := cid, dbname := db, connected := now, handle := h }]),
      subs := subAdd (crossSubs db cid h (findGroup st.registry db) st.subs) h topicAll },
   [Act.accept h, Act.deliver h (welcomeFrame cfg)]
     ++ publishApp (crossSubs db cid h (findGroup st.registry db) st.subs) topicAll
         (jstr "connect:" ++ cid))

/-- The `upgrade` handler followed synchronously by the `open` handler
(src/server.ts lines 95-182).  `res.upgrade` invokes `open` synchronously
and `existingClient.ws.close()` invokes the close handler synchronously, so
the whole admission is one event-loop step: validate the query (else
respond with the status line and stop); look up the group (creating it);
close the incumbent carrying the same id, which runs the close handler;
then run the `open` body. -/
def connectStep (cfg : Config) (st : ServerState) (db : JStr) (q : Query)
    (h : Nat) (now : Nat) : ServerState × List Act :=
  match upgradeCheck cfg q with
  | some err => (st, [Act.httpResp err err])
  | none =>
    match (findGroup (ensureGroup st.registry db) db).find?
        (fun c => decide (c.id = q.id.getD [])) with
    | some old =>
        ((openAdmit cfg (closeSocket (ensureReg st db) db old.handle).1 db
            (q.id.getD []) h now).1,
         Act.closeTransport old.handle :: (closeSocket (ensureReg st db) db old.handle).2
           ++ (openAdmit cfg (closeSocket (ensureReg st db) db old.handle).1 db
                (q.id.getD []) h now).2)
    | none => openAdmit cfg (ensureReg st db) db (q.id.getD []) h now

/-- The spill branch of `handleIncomingMessage` (src/server.ts lines
313-325): when the post-tag body exceeds `maxPayload`, store it under a
generated id, register a 60-second deletion timer, and replace the
outbound body with `get:<id>`. -/
def spillStep (cfg : Config) (st : ServerState) (body : JStr)
    (now rand : Nat) : ServerState × JStr :=
  if cfg.maxPayload < body.length then
    ({ st with
        largeMessages := putSlot st.largeMessages (generateID now st.idSeq rand) body,
        timers := st.timers ++ [(now + 60000, generateID now st.idSeq rand)],
        idSeq := nextSeq st.idSeq },
     jstr "get:" ++ generateID now st.idSeq rand)
  else (st, body)

/-- The recipient resolution of the forwarding branch (src/server.ts lines
326-335): `to === 'all'` selects every group member on another socket,
any other recipient selects the members whose id matches (the sender is
not excluded there). -/
def forwardTargets (cs : List Client) (h : Nat) (dst : JStr) : List Client :=
  if dst = jstr "all" then cs.filter (fun c => decide (c.handle ≠ h))
  else cs.filter (fun c => decide (c.id = dst))

/-- `handleIncomingMessage(msg, ws)` (src/server.ts lines 301-346) for a
socket with identity `h` attached to database `db`; `now` and `rand`
feed `generateID` when a spill happens.  `ping` is answered directly;
otherwise the optional `to:` tag is parsed, the body is spilled when
oversized, and the result is either forwarded per recipient through
`sendMessage` or published on the sender's `from-` topic. -/
def handleIncomingMessage (cfg : Config) (st : ServerState) (h : Nat) (db : JStr)
    (msg : JStr) (now rand : Nat) : ServerState × List Act :=
  if msg = jstr "ping" then (ensureReg st db, [Act.deliver h (jstr "pong")])
  else if (parseTo msg).1 ≠ [] then
    ((spillStep cfg (ensureReg st db) (parseTo msg).2 now rand).1,
     (forwardTargets (findGroup (ensureGroup st.registry db) db) h (parseTo msg).1).map
       (fun c => Act.deliver c.handle
         (sendMessageData (spillStep cfg (ensureReg st db) (parseTo msg).2 now rand).2)))
  else
    match (findGroup (ensureGroup st.registry db) db).find?
        (fun c => decide (c.handle = h)) with
    | some sender =>
        ((spillStep cfg (ensureReg st db) (parseTo msg).2 now rand).1,
         publishWs st.subs h (fromTopic sender.dbname sender.id)
           (spillStep cfg (ensureReg st db) (parseTo msg).2 now rand).2)
    | none => ((spillStep cfg (ensureReg st db) (parseTo msg).2 now rand).1, [Act.warn])

/-- `GET /:dbname/clients` (src/server.ts lines 207-212): no
authentication; note the `getClients` side effect registers the group. -/
def clientsStep (st : ServerState) (db : JStr) : ServerState × List Act :=
  (ensureReg st db,
   [Act.httpResp (jstr "200") (clientsJson (findGroup (ensureGroup st.registry db) db))])

/-- `POST /:dbname/send` (src/server.ts lines 214-236): authenticate the
peer by id and token, answer `ok`, then inject the body as an inbound
frame on the peer's socket. -/
def sendStep (cfg : Config) (st : ServerState) (db : JStr) (q : Query)
    (body : JStr) (now rand : Nat) : ServerState × List Act :=
  match (findGroup (ensureGroup st.registry db) db).find?
      (fun c => decide (some c.id = q.id)) with
  | none => (ensureReg st db, [Act.httpResp (jstr "401 Unauthorized") (jstr "Unauthorized")])
  | some cl =>
    if tokenBadB cfg q.t then
      (ensureReg st db, [Act.httpResp (jstr "401 Unauthorized") (jstr "Unauthorized")])
    else
      ((handleIncomingMessage cfg (ensureReg st db) cl.handle cl.dbname body now rand).1,
       Act.httpResp (jstr "200") (jstr "ok")
         :: (handleIncomingMessage cfg (ensureReg st db) cl.handle cl.dbname body now rand).2)

/-- `GET /:dbname/receive` (src/server.ts lines 260-282): authenticate,
then atomically take the slot named by the `msg` query parameter,
answering `404 Not Found` when it is absent. -/
def receiveStep (cfg : Config) (st : ServerState) (db : JStr)
    (q : Query) : ServerState × List Act :=
  if ((findGroup (ensureGroup st.registry db) db).find?
      (fun c => decide (some c.id = q.id))).isNone || tokenBadB cfg q.t then
    (ensureReg st db, [Act.httpResp (jstr "401 Unauthorized") (jstr "Unauthorized")])
  else
    match lookupSlot st.largeMessages (q.msg.getD (jstr "undefined")) with
    | none => (ensureReg st db, [Act.httpResp (jstr "404 Not Found") (jstr "Not Found")])
    | some m =>
        ({ ensureReg st db with
            largeMessages := removeSlot st.largeMessages (q.msg.getD (jstr "undefined")) },
         [Act.httpResp (jstr "200") m])

/-- One event on the server's event loop.  Each event carries the wall
clock `now` at which it is processed; message-carrying events also carry
the `Math.random` draw used if a spill occurs. -/
inductive Ev where
  | connect (db : JStr) (q : Query) (h : Nat) (now : Nat)
  | wsClose (db : JStr) (h : Nat) (now : Nat)
  | wsMessage (db : JStr) (h : Nat) (frame : JStr) (now rand : Nat)
  | httpClients (db : JStr) (now : Nat)
  | httpSend (db : JStr) (q : Query) (body : JStr) (now rand : Nat)
  | httpReceive (db : JStr) (q : Query) (now : Nat)
deriving DecidableEq

/-- Process one event: run the due timer callbacks, then the handler. -/
def step (cfg : Config) (st : ServerState) (e : Ev) : ServerState × List Act :=
  match e with
  | .connect db q h now => connectStep cfg (fireTimers st now) db q h now
  | .wsClose db h now => closeSocket (fireTimers st now) db h
  | .wsMessage db h frame now rand =>
      handleIncomingMessage cfg (fireTimers st now) h db frame now rand
  | .httpClients db now => clientsStep (fireTimers st now) db
  | .httpSend db q body now rand => sendStep cfg (fireTimers st now) db q body now rand
  | .httpReceive db q now => receiveStep cfg (fireTimers st now) db q

/-- Run a list of events, keeping the final state. -/
def runState (cfg : Config) (st : ServerState) : List Ev → ServerState
  | [] => st
  | e :: es => runState cfg (step cfg st e).1 es

/-- Environment well-formedness of one event against the current state: a
fresh transport carries a socket identity not currently registered
(a new uWebSockets connection is a fresh object). -/
def okEvB (st : ServerState) : Ev → Bool
  | .connect _ _ h _ => (clientsOf st.registry).all (fun c => decide (c.handle ≠ h))
  | _ => true

/-- Environment well-formedness of a whole event trace. -/
def okTraceB (cfg : Config) (st : ServerState) : List Ev → Bool
  | [] => true
  | e :: es => okEvB st e && okTraceB cfg (step cfg st e).1 es

/-- A concrete state used to exercise the receive endpoint: one registered
peer of group `mydb` and one stored slot with its pending 60-second
deletion timer. -/
def sampleSlotState : ServerState :=
  { registry := [(jstr "mydb",
      [{ id := jstr "peer1", dbname := jstr "mydb", connected := 100, handle := 1 }])],
    largeMessages := [(jstr "slotA", jstr "BIGPAYLOAD")],
    timers := [(60100, jstr "slotA")],
    subs := [],
    idSeq := 3 }

/-- The query of the sample receive request. -/
def sampleSlotQuery : Query :=
  { id := some (jstr "peer1"), v := none, t := none, msg := some (jstr "slotA") }

/-- `t` has the shape `from-<db>-<rest>`. -/
def isFromOf (db t : JStr) : Prop := t = fromTopic db (t.drop (6 + db.length))

instance (db t : JStr) : Decidable (isFromOf db t) := by
  unfold isFromOf; infer_instance

/-- Structural invariant of the registry and the subscription table:
group keys are unique, every client sits in the group matching its
`dbname`, ids and transport handles are unique within a group, and every
subscription is either to the global `all` topic or to a `from-` topic of
the subscriber's own group. -/
def WFr (reg : Registry) (subs : Subs) : Prop :=
  (reg.map (fun e => e.1)).Nodup
  ∧ (∀ e ∈ reg, ∀ c ∈ e.2, c.dbname = e.1)
  ∧ (∀ e ∈ reg, (e.2.map (fun c => c.id)).Nodup)
  ∧ (∀ e ∈ reg, (e.2.map (fun c => c.handle)).Nodup)
  ∧ (∀ p ∈ subs, p.2 = topicAll
      ∨ ∃ c, c ∈ clientsOf reg ∧ c.handle = p.1 ∧ isFromOf c.dbname p.2)

/-- Well-formedness of a server state. -/
abbrev WF (st : ServerState) : Prop := WFr st.registry st.subs

instance (reg : Registry) (subs : Subs) : Decidable (WFr reg subs) := by
  unfold WFr; infer_instance

/-- Number of registry entries carrying database name `g` and client id
`i`, summed over every group of the registry. -/
def countGroupId : Registry → JStr → JStr → Nat
  | [], _, _ => 0
  | e :: es, g, i =>
      (e.2.filter (fun c => decide (c.dbname = g ∧ c.id = i))).length + countGroupId es g i


/-! ## String-model lemmas -/

theorem firstIdx_of_not_mem {c : Char} {s : JStr} (h : c ∉ s) : firstIdx c s = none := by
  induction s with
  | nil => rfl
  | cons x xs ih =>
      simp only [List.mem_cons, not_or] at h
      simp [firstIdx, Ne.symm h.1, ih h.2]

theorem firstIdx_app {c : Char} {l1 l2 : JStr} (h : c ∉ l1) :
    firstIdx c (l1 ++ c :: l2) = some l1.length := by
  induction l1 with
  | nil => simp [firstIdx]
  | cons x xs ih =>
      simp only [List.mem_cons, not_or] at h
      simp [firstIdx, Ne.symm h.1, ih h.2]

theorem jsSlice_nat (s : JStr) (a b : Nat) (ha : a ≤ s.length) (hb : b ≤ s.length) :
    jsSlice s a b = (s.take b).drop a := by
  unfold jsSlice
  have h1 : ¬ ((a : Int) < 0) := by omega
  have h2 : ¬ ((b : Int) < 0) := by omega
  rw [if_neg h1, if_neg h2]
  have h3 : (min (a : Int) (s.length : Int)).toNat = a := by omega
  have h4 : (min (b : Int) (s.length : Int)).toNat = b := by omega
  rw [h3, h4]

theorem jsSlice_neg_one (s : JStr) (a : Nat) :
    jsSlice s a (-1) = (s.take (s.length - 1)).drop
      ((if (a : Int) < 0 then max ((s.length : Int) + a) 0
        else min a (s.length : Int)).toNat) := by
  unfold jsSlice
  have h2 : ((-1 : Int) < 0) := by omega
  rw [if_pos h2]
  have h4 : (max ((s.length : Int) + (-1)) 0).toNat = s.length - 1 := by omega
  rw [h4]

/-- When the frame is `to:<r>;<b>` with a semicolon-free recipient, the
first semicolon delimits recipient from body and further semicolons in the
body are preserved. -/
theorem parseTo_semi (r b : JStr) (hr : ';' ∉ r) :
    parseTo (jstr "to:" ++ r ++ ';' :: b) = (r, b) := by
  have h3 : (jstr "to:").length = 3 := rfl
  have htag : (jstr "to:" ++ r ++ ';' :: b).take 3 = jstr "to:" := by
    rw [List.append_assoc]
    exact List.take_left' h3
  have hnot : ';' ∉ jstr "to:" ++ r := by
    simp only [List.mem_append, not_or]
    exact ⟨by decide, hr⟩
  have hl1 : (jstr "to:" ++ r).length = 3 + r.length := by
    simp only [List.length_append, h3]
  have hidx : firstIdx ';' (jstr "to:" ++ r ++ ';' :: b) = some (3 + r.length) := by
    have h0 := @firstIdx_app ';' (jstr "to:" ++ r) b hnot
    rw [hl1] at h0
    rw [List.append_assoc] at h0 ⊢
    exact h0
  have hj : jsIndexOf (jstr "to:" ++ r ++ ';' :: b) ';' = ((3 + r.length : Nat) : Int) := by
    unfold jsIndexOf
    rw [hidx]
  have hlen : (jstr "to:" ++ r ++ ';' :: b).length = 3 + r.length + 1 + b.length := by
    simp only [List.length_append, List.length_cons, h3]
    omega
  unfold parseTo
  rw [if_pos htag, hj]
  simp only [Prod.mk.injEq]
  refine ⟨?_, ?_⟩
  · have hc : ((3 : Nat) : Int) = (3 : Int) := by omega
    rw [← hc, jsSlice_nat _ 3 (3 + r.length) (by omega) (by omega)]
    have ht : (jstr "to:" ++ r ++ ';' :: b).take (3 + r.length) = jstr "to:" ++ r := by
      exact List.take_left' hl1
    rw [ht]
    exact List.drop_left' h3
  · have hc : ((3 + r.length : Nat) : Int) + 1 = ((3 + r.length + 1 : Nat) : Int) := by omega
    rw [hc, jsSlice_nat _ (3 + r.length + 1) _ (by omega) (by omega)]
    rw [List.take_length]
    have hassoc : jstr "to:" ++ r ++ ';' :: b = (jstr "to:" ++ r ++ [';']) ++ b := by
      simp
    rw [hassoc]
    refine List.drop_left' ?_
    simp only [List.length_append, h3, List.length_singleton]

/-- When the frame starts with `to:` but holds no semicolon at all, the
recipient is everything strictly between the tag and the final character
and the body is the entire original frame. -/
theorem parseTo_noSemi (s : JStr) (hs : ';' ∉ s) :
    parseTo (jstr "to:" ++ s) = (s.dropLast, jstr "to:" ++ s) := by
  have h3 : (jstr "to:").length = 3 := rfl
  have htag : (jstr "to:" ++ s).take 3 = jstr "to:" := List.take_left' h3
  have hnot : ';' ∉ jstr "to:" ++ s := by
    simp only [List.mem_append, not_or]
    exact ⟨by decide, hs⟩
  have hidx : firstIdx ';' (jstr "to:" ++ s) = none := firstIdx_of_not_mem hnot
  have hj : jsIndexOf (jstr "to:" ++ s) ';' = -1 := by
    unfold jsIndexOf
    rw [hidx]
  have hlen : (jstr "to:" ++ s).length = 3 + s.length := by
    simp only [List.length_append, h3]
  unfold parseTo
  rw [if_pos htag, hj]
  simp only [Prod.mk.injEq]
  refine ⟨?_, ?_⟩
  · have hc3 : (3 : Int) = ((3 : Nat) : Int) := by omega
    rw [hc3, jsSlice_neg_one]
    have hn3 : ¬ ((3 : Nat) : Int) < 0 := by omega
    rw [if_neg hn3]
    have h4 : (min ((3 : Nat) : Int) ((jstr "to:" ++ s).length : Int)).toNat = 3 := by
      rw [hlen]; omega
    rw [h4, hlen]
    cases s using List.reverseRecOn with
    | nil => decide
    | append_singleton ys y =>
        have hre : jstr "to:" ++ (ys ++ [y]) = (jstr "to:" ++ ys) ++ [y] := by simp
        have htake : ((jstr "to:" ++ ys) ++ [y]).take (3 + (ys ++ [y]).length - 1)
            = jstr "to:" ++ ys := by
          refine List.take_left' ?_
          simp only [List.length_append, h3, List.length_singleton]
          omega
        rw [hre, htake, List.drop_left' h3, List.dropLast_concat]
  · have hneg : ((-1 : Int) + 1) = ((0 : Nat) : Int) := by omega
    rw [hneg, jsSlice_nat _ 0 _ (by omega) (by omega)]
    simp

/-! ## Base-36 lemmas -/

theorem isB36_b36Char {n : Nat} (h : n < 36) : isB36 (b36Char n) := by
  interval_cases n <;> decide

theorem natToB36_mem {n : Nat} : ∀ c ∈ natToB36 n, isB36 c := by
  induction n using Nat.strong_induction_on with
  | _ n ih =>
      intro c hc
      rw [natToB36] at hc
      split at hc
      · next h =>
          simp only [List.mem_singleton] at hc
          exact hc ▸ isB36_b36Char h
      · next h =>
          rcases List.mem_append.mp hc with h1 | h2
          · exact ih (n / 36) (Nat.div_lt_self (by omega) (by omega)) c h1
          · simp only [List.mem_singleton] at h2
            exact h2 ▸ isB36_b36Char (Nat.mod_lt _ (by omega))

theorem natToB36_length_le : ∀ (k n : Nat), n < 36 ^ (k + 1) → (natToB36 n).length ≤ k + 1 := by
  intro k
  induction k with
  | zero =>
      intro n hn
      rw [natToB36, dif_pos (by simpa using hn)]
      simp
  | succ k ih =>
      intro n hn
      rw [natToB36]
      by_cases h : n < 36
      · rw [dif_pos h]; simp
      · rw [dif_neg h]
        have hdiv : n / 36 < 36 ^ (k + 1) := by
          rw [Nat.div_lt_iff_lt_mul (by omega)]
          calc n < 36 ^ (k + 1 + 1) := hn
          _ = 36 ^ (k + 1) * 36 := by ring
        have := ih (n / 36) hdiv
        simp only [List.length_append, List.length_singleton]
        omega

theorem pad8_length {s : JStr} (h : s.length ≤ 8) : (pad8 s).length = 8 := by
  simp only [pad8, List.length_append, List.length_replicate]
  omega

theorem maxNr_pos : 0 < maxNr := by unfold maxNr; positivity

theorem nextSeq_mod {s : Nat} (h : s < maxNr) : nextSeq s = (s + 1) % maxNr := by
  unfold nextSeq
  by_cases he : s + 1 = maxNr
  · rw [if_pos he, he, Nat.mod_self]
  · rw [if_neg he, Nat.mod_eq_of_lt (by omega)]

/-! ## Registry lemmas -/

theorem clientsOf_nil : clientsOf [] = [] := rfl

theorem clientsOf_cons (e : JStr × List Client) (es : Registry) :
    clientsOf (e :: es) = e.2 ++ clientsOf es := rfl

theorem clientsOf_append (r1 r2 : Registry) :
    clientsOf (r1 ++ r2) = clientsOf r1 ++ clientsOf r2 := by
  induction r1 with
  | nil => simp [clientsOf_nil]
  | cons e es ih => simp [clientsOf_cons, ih]

theorem mem_clientsOf {reg : Registry} {c : Client} :
    c ∈ clientsOf reg ↔ ∃ e, e ∈ reg ∧ c ∈ e.2 := by
  induction reg with
  | nil => simp [clientsOf_nil]
  | cons f es ih =>
      rw [clientsOf_cons, List.mem_append, ih]
      constructor
      · rintro (h | ⟨e, he, hc⟩)
        · exact ⟨f, List.mem_cons_self f es, h⟩
        · exact ⟨e, List.mem_cons_of_mem _ he, hc⟩
      · rintro ⟨e, he, hc⟩
        rcases List.mem_cons.mp he with rfl | he2
        · exact Or.inl hc
        · exact Or.inr ⟨e, he2, hc⟩

theorem clientsOf_ensureGroup (reg : Registry) (db : JStr) :
    clientsOf (ensureGroup reg db) = clientsOf reg := by
  unfold ensureGroup
  split
  · rfl
  · rw [clientsOf_append]
    simp [clientsOf_cons, clientsOf_nil]

theorem findGroup_nil (d : JStr) : findGroup [] d = [] := rfl

theorem findGroup_cons_self {f : JStr × List Client} {es : Registry} {d : JStr}
    (hf : f.1 = d) : findGroup (f :: es) d = f.2 := by
  unfold findGroup
  rw [List.find?_cons_of_pos _ (by simpa using hf)]

theorem findGroup_cons_ne {f : JStr × List Client} {es : Registry} {d : JStr}
    (hf : f.1 ≠ d) : findGroup (f :: es) d = findGroup es d := by
  unfold findGroup
  rw [List.find?_cons_of_neg _ (by simpa using hf)]

theorem findGroup_ensureGroup (reg : Registry) (db d : JStr) :
    findGroup (ensureGroup reg db) d = findGroup reg d := by
  unfold ensureGroup
  split
  · rfl
  · next hmem =>
      induction reg with
      | nil =>
          by_cases hd : db = d
          · subst hd
            rw [List.nil_append, findGroup_cons_self rfl, findGroup_nil]
          · rw [List.nil_append, findGroup_cons_ne hd]
      | cons f es ih =>
          have hmem2 : db ∉ es.map (fun e => e.1) := by
            intro hx
            exact hmem (by simp [hx])
          by_cases hf : f.1 = d
          · rw [List.cons_append, findGroup_cons_self hf, findGroup_cons_self hf]
          · rw [List.cons_append, findGroup_cons_ne hf, findGroup_cons_ne hf]
            exact ih hmem2

theorem ensureGroup_eq_of_mem {reg : Registry} {db : JStr}
    (h : db ∈ reg.map (fun e => e.1)) : ensureGroup reg db = reg := by
  unfold ensureGroup
  rw [if_pos h]

theorem mem_keys_ensureGroup_self (reg : Registry) (db : JStr) :
    db ∈ (ensureGroup reg db).map (fun e => e.1) := by
  unfold ensureGroup
  split
  · assumption
  · simp

theorem mem_keys_ensureGroup_of_mem {reg : Registry} {db g : JStr}
    (h : g ∈ reg.map (fun e => e.1)) : g ∈ (ensureGroup reg db).map (fun e => e.1) := by
  unfold ensureGroup
  split
  · exact h
  · simp only [List.map_append, List.mem_append]
    exact Or.inl h

theorem setGroup_nil (db : JStr) (cs : List Client) : setGroup [] db cs = [] := rfl

theorem setGroup_cons (f : JStr × List Client) (es : Registry) (db : JStr) (cs : List Client) :
    setGroup (f :: es) db cs = (if f.1 = db then (db, cs) else f) :: setGroup es db cs := rfl

theorem keys_setGroup (reg : Registry) (db : JStr) (cs : List Client) :
    (setGroup reg db cs).map (fun e => e.1) = reg.map (fun e => e.1) := by
  unfold setGroup
  rw [List.map_map]
  apply List.map_congr_left
  intro e _
  by_cases h : e.1 = db
  · simp [h]
  · simp [h]

theorem mem_setGroup {reg : Registry} {db : JStr} {cs : List Client} {e : JStr × List Client} :
    e ∈ setGroup reg db cs ↔ ∃ f, f ∈ reg ∧ e = (if f.1 = db then (db, cs) else f) := by
  unfold setGroup
  rw [List.mem_map]
  constructor
  · rintro ⟨f, hf, rfl⟩; exact ⟨f, hf, rfl⟩
  · rintro ⟨f, hf, rfl⟩; exact ⟨f, hf, rfl⟩

theorem findGroup_setGroup_self {reg : Registry} {db : JStr} {cs : List Client}
    (h : db ∈ reg.map (fun e => e.1)) : findGroup (setGroup reg db cs) db = cs := by
  induction reg with
  | nil => simp at h
  | cons f es ih =>
      rw [setGroup_cons]
      by_cases hf : f.1 = db
      · rw [if_pos hf]
        exact findGroup_cons_self rfl
      · rw [if_neg hf, findGroup_cons_ne hf]
        apply ih
        simp only [List.map_cons, List.mem_cons] at h
        rcases h with h | h
        · exact absurd h.symm hf
        · exact h

theorem findGroup_setGroup_ne {reg : Registry} {db d : JStr} {cs : List Client}
    (hne : d ≠ db) : findGroup (setGroup reg db cs) d = findGroup reg d := by
  induction reg with
  | nil => rfl
  | cons f es ih =>
      rw [setGroup_cons]
      by_cases hf : f.1 = db
      · rw [if_pos hf,
          findGroup_cons_ne (show ((db, cs) : JStr × List Client).1 ≠ d from Ne.symm hne),
          findGroup_cons_ne (show f.1 ≠ d by rw [hf]; exact Ne.symm hne)]
        exact ih
      · by_cases hd : f.1 = d
        · rw [if_neg hf, findGroup_cons_self hd, findGroup_cons_self hd]
        · rw [if_neg hf, findGroup_cons_ne hd, findGroup_cons_ne hd]
          exact ih

theorem findGroup_eq_of_mem {reg : Registry} (hk : (reg.map (fun e => e.1)).Nodup)
    {e : JStr × List Client} (he : e ∈ reg) : findGroup reg e.1 = e.2 := by
  induction reg with
  | nil => cases he
  | cons f es ih =>
      rw [List.map_cons, List.nodup_cons] at hk
      rcases List.mem_cons.mp he with rfl | h2
      · exact findGroup_cons_self rfl
      · by_cases hf : f.1 = e.1
        · exfalso
          apply hk.1
          rw [hf]
          exact List.mem_map.mpr ⟨e, h2, rfl⟩
        · rw [findGroup_cons_ne hf]
          exact ih hk.2 h2

theorem findGroup_mem {reg : Registry} {d : JStr} {c : Client}
    (hc : c ∈ findGroup reg d) : ∃ e, e ∈ reg ∧ e.1 = d ∧ c ∈ e.2 := by
  unfold findGroup at hc
  cases hf : reg.find? (fun e => decide (e.1 = d)) with
  | none => rw [hf] at hc; cases hc
  | some e =>
      rw [hf] at hc
      exact ⟨e, List.mem_of_find?_eq_some hf, by simpa using List.find?_some hf, hc⟩

theorem findGroup_mem_clientsOf {reg : Registry} {d : JStr} {c : Client}
    (hc : c ∈ findGroup reg d) : c ∈ clientsOf reg := by
  obtain ⟨e, he, _, hce⟩ := findGroup_mem hc
  exact mem_clientsOf.mpr ⟨e, he, hce⟩

/-! ## removeFirst and subscription lemmas -/

theorem removeFirst_sublist (p : Client → Bool) (l : List Client) : List.Sublist (removeFirst p l) l := by
  induction l with
  | nil => exact List.Sublist.refl _
  | cons c cs ih =>
      unfold removeFirst
      by_cases h : p c
      · rw [if_pos h]
        exact List.sublist_cons_self c cs
      · rw [if_neg h]
        exact ih.cons₂ c

theorem mem_removeFirst_of_neg {p : Client → Bool} {l : List Client} {c : Client}
    (hc : c ∈ l) (hp : p c = false) : c ∈ removeFirst p l := by
  induction l with
  | nil => cases hc
  | cons a t ih =>
      unfold removeFirst
      rcases List.mem_cons.mp hc with rfl | h2
      · rw [if_neg (by simp [hp])]
        exact List.mem_cons_self _ _
      · by_cases ha : p a
        · rw [if_pos ha]; exact h2
        · rw [if_neg ha]; exact List.mem_cons_of_mem _ (ih h2)

theorem not_mem_removeFirst_unique {p : Client → Bool} {l : List Client} {x : Client}
    (hl : l.Nodup) (hpx : p x = true) (hu : ∀ y ∈ l, p y = true → y = x) :
    x ∉ removeFirst p l := by
  induction l with
  | nil => simp [removeFirst]
  | cons a t ih =>
      rw [List.nodup_cons] at hl
      unfold removeFirst
      by_cases hpa : p a
      · rw [if_pos hpa]
        have ha : a = x := hu a (List.mem_cons_self a t) hpa
        rw [← ha]
        exact hl.1
      · rw [if_neg hpa]
        intro hmem
        rcases List.mem_cons.mp hmem with rfl | h2
        · exact hpa hpx
        · exact ih hl.2 (fun y hy hpy => hu y (List.mem_cons_of_mem _ hy) hpy) h2

theorem mem_subAdd {subs : Subs} {h : Nat} {t : JStr} {p : Nat × JStr} :
    p ∈ subAdd subs h t ↔ p ∈ subs ∨ p = (h, t) := by
  unfold subAdd
  split
  · next hmem =>
      constructor
      · exact Or.inl
      · rintro (hp | rfl)
        · exact hp
        · exact hmem
  · simp

theorem mem_crossSubs {db cid : JStr} {h : Nat} {p : Nat × JStr} :
    ∀ (cs : List Client) (subs : Subs), p ∈ crossSubs db cid h cs subs →
      p ∈ subs ∨ ∃ c, c ∈ cs ∧ (p = (h, fromTopic db c.id) ∨ p = (c.handle, fromTopic db cid)) := by
  intro cs
  induction cs with
  | nil => intro subs hp; exact Or.inl hp
  | cons c t ih =>
      intro subs hp
      rcases ih _ hp with hsub | ⟨c2, hc2, hor⟩
      · rcases mem_subAdd.mp hsub with hsub2 | rfl
        · rcases mem_subAdd.mp hsub2 with hsub3 | rfl
          · exact Or.inl hsub3
          · exact Or.inr ⟨c, List.mem_cons_self c t, Or.inl rfl⟩
        · exact Or.inr ⟨c, List.mem_cons_self c t, Or.inr rfl⟩
      · exact Or.inr ⟨c2, List.mem_cons_of_mem _ hc2, hor⟩

/-! ## Topic lemmas -/

theorem drop_app_plus (l1 l2 : JStr) (k : Nat) :
    (l1 ++ l2).drop (l1.length + k) = l2.drop k := by
  induction l1 with
  | nil => simp
  | cons a t ih =>
      have : (a :: t).length + k = (t.length + k) + 1 := by simp; omega
      rw [this, List.cons_append, List.drop_succ_cons, ih]

theorem fromTopic_drop (db i : JStr) : (fromTopic db i).drop (6 + db.length) = i := by
  unfold fromTopic
  have h1 : 6 + db.length = 5 + (db.length + 1) := by omega
  rw [h1, ← List.drop_drop]
  have h2 : List.drop 5 ('f' :: 'r' :: 'o' :: 'm' :: '-' :: (db ++ '-' :: i)) = db ++ '-' :: i := rfl
  rw [h2]
  have h4 : (db ++ '-' :: i).drop (db.length + 1) = ('-' :: i).drop 1 := drop_app_plus db ('-' :: i) 1
  rw [h4]
  rfl

theorem isFromOf_fromTopic (db i : JStr) : isFromOf db (fromTopic db i) := by
  unfold isFromOf
  rw [fromTopic_drop]

theorem fromTopic_ne_all (db i : JStr) : fromTopic db i ≠ topicAll := by
  unfold fromTopic topicAll
  simp

theorem hyphen_inj (a : JStr) : ∀ (b x y : JStr), '-' ∉ a → '-' ∉ b →
    a ++ '-' :: x = b ++ '-' :: y → a = b ∧ x = y := by
  induction a with
  | nil =>
      intro b x y _ hb h
      cases b with
      | nil => simpa using h
      | cons d u =>
          exfalso
          simp only [List.nil_append, List.cons_append, List.cons.injEq] at h
          exact hb (List.mem_cons.mpr (Or.inl h.1))
  | cons c t ih =>
      intro b x y ha hb h
      cases b with
      | nil =>
          exfalso
          simp only [List.cons_append, List.nil_append, List.cons.injEq] at h
          exact ha (List.mem_cons.mpr (Or.inl h.1.symm))
      | cons d u =>
          simp only [List.cons_append, List.cons.injEq] at h
          obtain ⟨hcd, hrest⟩ := h
          have ha2 : '-' ∉ t := fun hm => ha (List.mem_cons_of_mem _ hm)
          have hb2 : '-' ∉ u := fun hm => hb (List.mem_cons_of_mem _ hm)
          obtain ⟨h1, h2⟩ := ih u x y ha2 hb2 hrest
          exact ⟨by rw [hcd, h1], h2⟩

theorem fromTopic_group_inj {db g s i : JStr} (hdb : '-' ∉ db) (hg : '-' ∉ g)
    (h : fromTopic db s = fromTopic g i) : db = g := by
  unfold fromTopic at h
  simp only [List.cons.injEq, true_and] at h
  exact (hyphen_inj db g s i hdb hg h).1

/-! ## Well-formedness invariant of reachable server states -/

theorem findGroup_cases (reg : Registry) (d : JStr) :
    findGroup reg d = [] ∨ ∃ e, e ∈ reg ∧ e.1 = d ∧ findGroup reg d = e.2 := by
  unfold findGroup
  cases hf : reg.find? (fun e => decide (e.1 = d)) with
  | none => exact Or.inl rfl
  | some e =>
      exact Or.inr ⟨e, List.mem_of_find?_eq_some hf, by simpa using List.find?_some hf, rfl⟩

theorem WFr.group_dbname {reg : Registry} {subs : Subs} (h : WFr reg subs)
    {d : JStr} {c : Client} (hc : c ∈ findGroup reg d) : c.dbname = d := by
  obtain ⟨e, he, h1, hce⟩ := findGroup_mem hc
  rw [h.2.1 e he c hce, h1]

theorem WFr.group_ids_nodup {reg : Registry} {subs : Subs} (h : WFr reg subs)
    (d : JStr) : ((findGroup reg d).map (fun c => c.id)).Nodup := by
  rcases findGroup_cases reg d with h0 | ⟨e, he, _, h0⟩
  · rw [h0]; exact List.nodup_nil
  · rw [h0]; exact h.2.2.1 e he

theorem WFr.group_handles_nodup {reg : Registry} {subs : Subs} (h : WFr reg subs)
    (d : JStr) : ((findGroup reg d).map (fun c => c.handle)).Nodup := by
  rcases findGroup_cases reg d with h0 | ⟨e, he, _, h0⟩
  · rw [h0]; exact List.nodup_nil
  · rw [h0]; exact h.2.2.2.1 e he

theorem wfr_ensure {reg : Registry} {subs : Subs} {db : JStr}
    (h : WFr reg subs) : WFr (ensureGroup reg db) subs := by
  obtain ⟨h1, h2, h3, h4, h5⟩ := h
  unfold ensureGroup
  split
  · exact ⟨h1, h2, h3, h4, h5⟩
  · next hmem =>
      refine ⟨?_, ?_, ?_, ?_, ?_⟩
      · rw [List.map_append, List.nodup_append]
        refine ⟨h1, by simp, ?_⟩
        intro a ha hb
        simp only [List.map_cons, List.map_nil, List.mem_singleton] at hb
        exact hmem (hb ▸ ha)
      · intro e he
        rcases List.mem_append.mp he with he1 | he2
        · exact h2 e he1
        · intro c hc
          simp only [List.mem_singleton] at he2
          subst he2
          simp at hc
      · intro e he
        rcases List.mem_append.mp he with he1 | he2
        · exact h3 e he1
        · simp only [List.mem_singleton] at he2; subst he2; simp
      · intro e he
        rcases List.mem_append.mp he with he1 | he2
        · exact h4 e he1
        · simp only [List.mem_singleton] at he2; subst he2; simp
      · intro p hp
        rcases h5 p hp with hl | ⟨c, hc, h6, h7⟩
        · exact Or.inl hl
        · refine Or.inr ⟨c, ?_, h6, h7⟩
          rw [clientsOf_append]
          exact List.mem_append.mpr (Or.inl hc)

theorem wf_ensureReg {st : ServerState} {db : JStr} (h : WF st) : WF (ensureReg st db) :=
  wfr_ensure h

theorem wf_fireTimers {st : ServerState} (now : Nat) (h : WF st) :
    WF (fireTimers st now) := h

theorem wf_closeSocket (st : ServerState) (db : JStr) (hnd : Nat) (h : WF st) :
    WF (closeSocket st db hnd).1 := by
  have h1 : WFr (ensureGroup st.registry db) st.subs := wfr_ensure h
  obtain ⟨g1, g2, g3, g4, g5⟩ := h1
  unfold closeSocket
  split
  · next cl heq =>
      refine ⟨?_, ?_, ?_, ?_, ?_⟩
      · rw [keys_setGroup]; exact g1
      · intro e he c hc
        rcases mem_setGroup.mp he with ⟨f, hfm, hef⟩
        by_cases hfd : f.1 = db
        · rw [if_pos hfd] at hef; subst hef
          have hcs : c ∈ findGroup (ensureGroup st.registry db) db :=
            (removeFirst_sublist _ _).subset hc
          rw [WFr.group_dbname ⟨g1, g2, g3, g4, g5⟩ hcs]
        · rw [if_neg hfd] at hef; subst hef
          exact g2 e hfm c hc
      · intro e he
        rcases mem_setGroup.mp he with ⟨f, hfm, hef⟩
        by_cases hfd : f.1 = db
        · rw [if_pos hfd] at hef; subst hef
          exact List.Nodup.sublist
            ((removeFirst_sublist _ _).map (fun c => c.id))
            (WFr.group_ids_nodup ⟨g1, g2, g3, g4, g5⟩ db)
        · rw [if_neg hfd] at hef; subst hef
          exact g3 e hfm
      · intro e he
        rcases mem_setGroup.mp he with ⟨f, hfm, hef⟩
        by_cases hfd : f.1 = db
        · rw [if_pos hfd] at hef; subst hef
          exact List.Nodup.sublist
            ((removeFirst_sublist _ _).map (fun c => c.handle))
            (WFr.group_handles_nodup ⟨g1, g2, g3, g4, g5⟩ db)
        · rw [if_neg hfd] at hef; subst hef
          exact g4 e hfm
      · intro p hp
        have hp2 := List.mem_of_mem_filter hp
        have hne : p.1 ≠ hnd := by
          have := List.of_mem_filter hp
          simpa using this
        rcases g5 p hp2 with hl | ⟨c, hcReg, hch, hfrom⟩
        · exact Or.inl hl
        · refine Or.inr ⟨c, ?_, hch, hfrom⟩
          obtain ⟨e0, he0, hce0⟩ := mem_clientsOf.mp hcReg
          by_cases hkey : e0.1 = db
          · subst hkey
            have hcs0 : findGroup (ensureGroup st.registry e0.1) e0.1 = e0.2 :=
              findGroup_eq_of_mem g1 he0
            apply mem_clientsOf.mpr
            refine ⟨(e0.1, removeFirst (fun c => decide (c.handle = hnd))
              (findGroup (ensureGroup st.registry e0.1) e0.1)), ?_, ?_⟩
            · exact mem_setGroup.mpr ⟨e0, he0, by rw [if_pos rfl]⟩
            · apply mem_removeFirst_of_neg
              · rw [hcs0]; exact hce0
              · simp only [decide_eq_false_iff_not]
                rw [hch]; exact hne
          · apply mem_clientsOf.mpr
            refine ⟨e0, ?_, hce0⟩
            exact mem_setGroup.mpr ⟨e0, he0, by rw [if_neg hkey]⟩
  · next heq =>
      refine ⟨g1, g2, g3, g4, ?_⟩
      intro p hp
      exact g5 p (List.mem_of_mem_filter hp)

theorem closeSocket_keys (s : ServerState) (db : JStr) (hnd : Nat) :
    (closeSocket s db hnd).1.registry.map (fun e => e.1)
      = (ensureGroup s.registry db).map (fun e => e.1) := by
  unfold closeSocket
  split
  · exact keys_setGroup _ _ _
  · rfl

theorem closeSocket_subs (s : ServerState) (db : JStr) (hnd : Nat) :
    (closeSocket s db hnd).1.subs = s.subs.filter (fun p => decide (p.1 ≠ hnd)) := by
  unfold closeSocket
  split
  · rfl
  · rfl

theorem ensureGroup_idem (reg : Registry) (db : JStr) :
    ensureGroup (ensureGroup reg db) db = ensureGroup reg db :=
  ensureGroup_eq_of_mem (mem_keys_ensureGroup_self reg db)

theorem spillStep_registry (cfg : Config) (s : ServerState) (body : JStr) (now rand : Nat) :
    (spillStep cfg s body now rand).1.registry = s.registry := by
  unfold spillStep; split <;> rfl

theorem spillStep_subs (cfg : Config) (s : ServerState) (body : JStr) (now rand : Nat) :
    (spillStep cfg s body now rand).1.subs = s.subs := by
  unfold spillStep; split <;> rfl

theorem spillStep_timers (cfg : Config) (s : ServerState) (body : JStr) (now rand : Nat)
    (h : cfg.maxPayload < body.length) :
    (spillStep cfg s body now rand).1.timers
      = s.timers ++ [(now + 60000, generateID now s.idSeq rand)] := by
  unfold spillStep; rw [if_pos h]

theorem handleIncoming_registry (cfg : Config) (s : ServerState) (h : Nat) (db : JStr)
    (msg : JStr) (now rand : Nat) :
    (handleIncomingMessage cfg s h db msg now rand).1.registry = ensureGroup s.registry db := by
  unfold handleIncomingMessage
  split
  · rfl
  · split
    · rw [spillStep_registry]; rfl
    · split <;> (rw [spillStep_registry]; rfl)

theorem handleIncoming_subs (cfg : Config) (s : ServerState) (h : Nat) (db : JStr)
    (msg : JStr) (now rand : Nat) :
    (handleIncomingMessage cfg s h db msg now rand).1.subs = s.subs := by
  unfold handleIncomingMessage
  split
  · rfl
  · split
    · rw [spillStep_subs]; rfl
    · split <;> (rw [spillStep_subs]; rfl)

theorem receiveStep_registry (cfg : Config) (s : ServerState) (db : JStr) (q : Query) :
    (receiveStep cfg s db q).1.registry = ensureGroup s.registry db := by
  unfold receiveStep
  split
  · rfl
  · split <;> rfl

theorem receiveStep_subs (cfg : Config) (s : ServerState) (db : JStr) (q : Query) :
    (receiveStep cfg s db q).1.subs = s.subs := by
  unfold receiveStep
  split
  · rfl
  · split <;> rfl

theorem openAdmit_keys (cfg : Config) (s : ServerState) (db cid : JStr) (h now : Nat) :
    (openAdmit cfg s db cid h now).1.registry.map (fun e => e.1)
      = s.registry.map (fun e => e.1) :=
  keys_setGroup _ _ _

theorem mem_clientsOf_setGroup_extend {reg : Registry}
    (g1 : (reg.map (fun e => e.1)).Nodup)
    {db : JStr} {ext : List Client} {c : Client} (hc : c ∈ clientsOf reg) :
    c ∈ clientsOf (setGroup reg db (findGroup reg db ++ ext)) := by
  obtain ⟨e0, he0, hce0⟩ := mem_clientsOf.mp hc
  by_cases hkey : e0.1 = db
  · subst hkey
    have hcs0 : findGroup reg e0.1 = e0.2 := findGroup_eq_of_mem g1 he0
    exact mem_clientsOf.mpr ⟨(e0.1, findGroup reg e0.1 ++ ext),
      mem_setGroup.mpr ⟨e0, he0, by rw [if_pos rfl]⟩,
      List.mem_append.mpr (Or.inl (by rw [hcs0]; exact hce0))⟩
  · exact mem_clientsOf.mpr ⟨e0, mem_setGroup.mpr ⟨e0, he0, by rw [if_neg hkey]⟩, hce0⟩

theorem mem_clientsOf_setGroup_new {reg : Registry} {db : JStr} {cs : List Client} {c : Client}
    (hdb : db ∈ reg.map (fun e => e.1)) (hc : c ∈ cs) :
    c ∈ clientsOf (setGroup reg db cs) := by
  obtain ⟨e0, he0, hkey⟩ := List.mem_map.mp hdb
  exact mem_clientsOf.mpr ⟨(db, cs), mem_setGroup.mpr ⟨e0, he0, by rw [if_pos hkey]⟩, hc⟩

/-- Well-formedness is preserved by the `open` body, provided the group
exists, no group member carries the incoming id any more (duplicate-id
eviction has run), and the new transport handle is fresh. -/
theorem wfr_admit {reg : Registry} {subs : Subs} {db cid : JStr} {h now : Nat}
    (hwf : WFr reg subs)
    (hdb : db ∈ reg.map (fun e => e.1))
    (hid : ∀ c ∈ findGroup reg db, c.id ≠ cid)
    (hfresh : ∀ c ∈ clientsOf reg, c.handle ≠ h) :
    WFr (setGroup reg db (findGroup reg db
          ++ [{ id := cid, dbname := db, connected := now, handle := h }]))
        (subAdd (crossSubs db cid h (findGroup reg db) subs) h topicAll) := by
  obtain ⟨g1, g2, g3, g4, g5⟩ := hwf
  refine ⟨?_, ?_, ?_, ?_, ?_⟩
  · rw [keys_setGroup]; exact g1
  · intro e he c hc
    rcases mem_setGroup.mp he with ⟨f, hfm, hef⟩
    by_cases hfd : f.1 = db
    · rw [if_pos hfd] at hef; subst hef
      rcases List.mem_append.mp hc with hc1 | hc2
      · exact WFr.group_dbname ⟨g1, g2, g3, g4, g5⟩ hc1
      · simp only [List.mem_singleton] at hc2; subst hc2; rfl
    · rw [if_neg hfd] at hef; subst hef
      exact g2 e hfm c hc
  · intro e he
    rcases mem_setGroup.mp he with ⟨f, hfm, hef⟩
    by_cases hfd : f.1 = db
    · rw [if_pos hfd] at hef; subst hef
      rw [List.map_append, List.nodup_append]
      refine ⟨WFr.group_ids_nodup ⟨g1, g2, g3, g4, g5⟩ db, by simp, ?_⟩
      intro a ha hb
      simp only [List.map_cons, List.map_nil, List.mem_singleton] at hb
      obtain ⟨c, hc, hca⟩ := List.mem_map.mp ha
      exact hid c hc (by rw [hca, hb])
    · rw [if_neg hfd] at hef; subst hef
      exact g3 e hfm
  · intro e he
    rcases mem_setGroup.mp he with ⟨f, hfm, hef⟩
    by_cases hfd : f.1 = db
    · rw [if_pos hfd] at hef; subst hef
      rw [List.map_append, List.nodup_append]
      refine ⟨WFr.group_handles_nodup ⟨g1, g2, g3, g4, g5⟩ db, by simp, ?_⟩
      intro a ha hb
      simp only [List.map_cons, List.map_nil, List.mem_singleton] at hb
      obtain ⟨c, hc, hca⟩ := List.mem_map.mp ha
      exact hfresh c (findGroup_mem_clientsOf hc) (by rw [hca, hb])
    · rw [if_neg hfd] at hef; subst hef
      exact g4 e hfm
  · intro p hp
    rcases mem_subAdd.mp hp with hp2 | rfl
    · rcases mem_crossSubs _ _ hp2 with hp3 | ⟨c, hc, hor⟩
      · rcases g5 p hp3 with hl | ⟨c, hcReg, hch, hfrom⟩
        · exact Or.inl hl
        · exact Or.inr ⟨c, mem_clientsOf_setGroup_extend g1 hcReg, hch, hfrom⟩
      · rcases hor with rfl | rfl
        · refine Or.inr ⟨{ id := cid, dbname := db, connected := now, handle := h },
            ?_, rfl, ?_⟩
          · exact mem_clientsOf_setGroup_new hdb
              (List.mem_append.mpr (Or.inr (List.mem_singleton.mpr rfl)))
          · exact isFromOf_fromTopic db c.id
        · refine Or.inr ⟨c, ?_, rfl, ?_⟩
          · exact mem_clientsOf_setGroup_extend g1 (findGroup_mem_clientsOf hc)
          · have hcd : c.dbname = db := WFr.group_dbname ⟨g1, g2, g3, g4, g5⟩ hc
            show isFromOf c.dbname (fromTopic db cid)
            rw [hcd]
            exact isFromOf_fromTopic db cid
    · exact Or.inl rfl

/-- The eviction in `upgrade` removes the only group member carrying the
incoming id: after closing the incumbent's socket, no member of the group
carries that id. -/
theorem closeSocket_no_id {s : ServerState} {db cid : JStr} {old : Client}
    (hwf : WF s) (hdb : db ∈ s.registry.map (fun e => e.1))
    (hfind : (findGroup s.registry db).find? (fun c => decide (c.id = cid)) = some old) :
    ∀ c ∈ findGroup (closeSocket s db old.handle).1.registry db, c.id ≠ cid := by
  have hens : ensureGroup s.registry db = s.registry := ensureGroup_eq_of_mem hdb
  have hold_mem : old ∈ findGroup s.registry db := List.mem_of_find?_eq_some hfind
  have hold_id : old.id = cid := by simpa using List.find?_some hfind
  have hidsnodup := WFr.group_ids_nodup hwf db
  have hhnodup := WFr.group_handles_nodup hwf db
  have hlnodup : (findGroup s.registry db).Nodup := List.Nodup.of_map _ hhnodup
  intro c hc hcid
  unfold closeSocket at hc
  rw [hens] at hc
  split at hc
  · next cl heq =>
      rw [findGroup_setGroup_self hdb] at hc
      have hsub : c ∈ findGroup s.registry db := (removeFirst_sublist _ _).subset hc
      have hceq : c = old :=
        List.inj_on_of_nodup_map hidsnodup hsub hold_mem (by rw [hcid, hold_id])
      have hnot := @not_mem_removeFirst_unique
        (fun c => decide (c.handle = old.handle)) _ old hlnodup (by simp)
        (fun y hy hpy =>
          List.inj_on_of_nodup_map hhnodup hy hold_mem (by simpa using hpy))
      exact hnot (hceq ▸ hc)
  · next heq =>
      have := List.find?_eq_none.mp heq old hold_mem
      simp at this

theorem closeSocket_clients_subset {s : ServerState} {db : JStr} {hnd : Nat} {c : Client}
    (hc : c ∈ clientsOf (closeSocket s db hnd).1.registry) :
    c ∈ clientsOf (ensureGroup s.registry db) := by
  unfold closeSocket at hc
  split at hc
  · next cl heq =>
      obtain ⟨e, he, hce⟩ := mem_clientsOf.mp hc
      rcases mem_setGroup.mp he with ⟨f, hfm, hef⟩
      by_cases hfd : f.1 = db
      · rw [if_pos hfd] at hef; subst hef
        exact findGroup_mem_clientsOf ((removeFirst_sublist _ _).subset hce)
      · rw [if_neg hfd] at hef; subst hef
        exact mem_clientsOf.mpr ⟨e, hfm, hce⟩
  · next heq => exact hc

theorem wf_connectStep (cfg : Config) (st : ServerState) (db : JStr) (q : Query)
    (h now : Nat) (hwf : WF st)
    (hfresh : ∀ c ∈ clientsOf st.registry, c.handle ≠ h) :
    WF (connectStep cfg st db q h now).1 := by
  have hereg : (ensureReg st db).registry = ensureGroup st.registry db := rfl
  unfold connectStep
  split
  · exact hwf
  · split
    · next old hfind =>
        have hwf1 : WF (ensureReg st db) := wf_ensureReg hwf
        have hwf2 : WF (closeSocket (ensureReg st db) db old.handle).1 :=
          wf_closeSocket _ db old.handle hwf1
        have hkeys : (closeSocket (ensureReg st db) db old.handle).1.registry.map (fun e => e.1)
            = (ensureGroup st.registry db).map (fun e => e.1) := by
          rw [closeSocket_keys, hereg, ensureGroup_idem]
        refine wfr_admit hwf2 ?_ ?_ ?_
        · rw [hkeys]; exact mem_keys_ensureGroup_self _ _
        · have hdb1 : db ∈ (ensureReg st db).registry.map (fun e => e.1) := by
            rw [hereg]; exact mem_keys_ensureGroup_self _ _
          have hfind1 : (findGroup (ensureReg st db).registry db).find?
              (fun c => decide (c.id = q.id.getD [])) = some old := hfind
          exact closeSocket_no_id hwf1 hdb1 hfind1
        · intro c hc
          apply hfresh
          have h2 := closeSocket_clients_subset hc
          rw [hereg, ensureGroup_idem, clientsOf_ensureGroup] at h2
          exact h2
    · next hfind =>
        refine wfr_admit (wf_ensureReg hwf) ?_ ?_ ?_
        · rw [hereg]; exact mem_keys_ensureGroup_self _ _
        · intro c hc hcid
          have := List.find?_eq_none.mp hfind c hc
          simp only [decide_eq_true_eq] at this
          exact this hcid
        · intro c hc
          apply hfresh
          rw [hereg, clientsOf_ensureGroup] at hc
          exact hc

theorem wf_step (cfg : Config) (st : ServerState) (e : Ev) (hwf : WF st)
    (hok : okEvB st e = true) : WF (step cfg st e).1 := by
  cases e with
  | connect db q h now =>
      have hok2 : (clientsOf st.registry).all (fun c => decide (c.handle ≠ h)) = true := hok
      have hfresh : ∀ c ∈ clientsOf st.registry, c.handle ≠ h := by
        intro c hc
        have := List.all_eq_true.mp hok2 c hc
        simpa using this
      exact wf_connectStep cfg (fireTimers st now) db q h now hwf hfresh
  | wsClose db h now => exact wf_closeSocket _ db h hwf
  | wsMessage db h frame now rand =>
      show WFr (handleIncomingMessage cfg (fireTimers st now) h db frame now rand).1.registry
        (handleIncomingMessage cfg (fireTimers st now) h db frame now rand).1.subs
      rw [handleIncoming_registry, handleIncoming_subs]
      exact wfr_ensure hwf
  | httpClients db now => exact wf_ensureReg hwf
  | httpSend db q body now rand =>
      show WF (sendStep cfg (fireTimers st now) db q body now rand).1
      unfold sendStep
      split
      · exact wf_ensureReg hwf
      · split
        · exact wf_ensureReg hwf
        · show WFr _ _
          rw [handleIncoming_registry, handleIncoming_subs]
          exact wfr_ensure (wfr_ensure hwf)
  | httpReceive db q now =>
      show WFr (receiveStep cfg (fireTimers st now) db q).1.registry
        (receiveStep cfg (fireTimers st now) db q).1.subs
      rw [receiveStep_registry, receiveStep_subs]
      exact wfr_ensure hwf

theorem wf_initState : WF initState := by
  refine ⟨?_, ?_, ?_, ?_, ?_⟩ <;> simp [initState]

theorem wf_runState (cfg : Config) : ∀ (evs : List Ev) (st : ServerState),
    WF st → okTraceB cfg st evs = true → WF (runState cfg st evs) := by
  intro evs
  induction evs with
  | nil => intro st h _; exact h
  | cons e es ih =>
      intro st h hok
      simp only [okTraceB, Bool.and_eq_true] at hok
      exact ih _ (wf_step cfg st e h hok.1) hok.2

/-! ## Counting peers per (group, id) -/

theorem filter_id_len_le_one {cs : List Client} (hn : (cs.map (fun c => c.id)).Nodup)
    (g i : JStr) : (cs.filter (fun c => decide (c.dbname = g ∧ c.id = i))).length ≤ 1 := by
  induction cs with
  | nil => simp
  | cons c t ih =>
      rw [List.map_cons, List.nodup_cons] at hn
      by_cases hp : (c.dbname = g ∧ c.id = i)
      · rw [List.filter_cons_of_pos (by simpa using hp)]
        have ht : t.filter (fun c => decide (c.dbname = g ∧ c.id = i)) = [] := by
          rw [List.filter_eq_nil_iff]
          intro x hx hpx
          simp only [decide_eq_true_eq] at hpx
          exact hn.1 (List.mem_map.mpr ⟨x, hx, hpx.2.trans hp.2.symm⟩)
        rw [List.length_cons, ht]
        simp
      · rw [List.filter_cons_of_neg (by simpa using hp)]
        exact ih hn.2

theorem countGroupId_zero {reg : Registry} {g : JStr}
    (h2 : ∀ e ∈ reg, ∀ c ∈ e.2, c.dbname = e.1)
    (hg : g ∉ reg.map (fun e => e.1)) (i : JStr) : countGroupId reg g i = 0 := by
  induction reg with
  | nil => rfl
  | cons e es ih =>
      simp only [List.map_cons, List.mem_cons, not_or] at hg
      have h0 : (e.2.filter (fun c => decide (c.dbname = g ∧ c.id = i))).length = 0 := by
        rw [List.length_eq_zero, List.filter_eq_nil_iff]
        intro x hx hpx
        simp only [decide_eq_true_eq] at hpx
        exact hg.1 ((h2 e (List.mem_cons_self e es) x hx).symm.trans hpx.1).symm
      show (e.2.filter (fun c => decide (c.dbname = g ∧ c.id = i))).length
          + countGroupId es g i = 0
      rw [h0, ih (fun f hf => h2 f (List.mem_cons_of_mem _ hf)) hg.2]

theorem countGroupId_le_one_aux : ∀ (reg : Registry) (g i : JStr),
    (reg.map (fun e => e.1)).Nodup →
    (∀ e ∈ reg, ∀ c ∈ e.2, c.dbname = e.1) →
    (∀ e ∈ reg, (e.2.map (fun c => c.id)).Nodup) →
    countGroupId reg g i ≤ 1 := by
  intro reg
  induction reg with
  | nil => intro g i _ _ _; simp [countGroupId]
  | cons e es ih =>
      intro g i h1 h2 h3
      rw [List.map_cons, List.nodup_cons] at h1
      have hlen := filter_id_len_le_one (h3 e (List.mem_cons_self e es)) g i
      show (e.2.filter (fun c => decide (c.dbname = g ∧ c.id = i))).length
          + countGroupId es g i ≤ 1
      by_cases hz : (e.2.filter (fun c => decide (c.dbname = g ∧ c.id = i))).length = 0
      · have htail := ih g i h1.2 (fun f hf => h2 f (List.mem_cons_of_mem _ hf))
          (fun f hf => h3 f (List.mem_cons_of_mem _ hf))
        omega
      · have hpos : 0 < (e.2.filter (fun c => decide (c.dbname = g ∧ c.id = i))).length :=
          Nat.pos_of_ne_zero hz
        obtain ⟨x, hx⟩ := List.exists_mem_of_length_pos hpos
        have hxm := List.mem_of_mem_filter hx
        have hxp := List.of_mem_filter hx
        simp only [decide_eq_true_eq] at hxp
        have heg : e.1 = g := (h2 e (List.mem_cons_self e es) x hxm).symm.trans hxp.1
        have htail : countGroupId es g i = 0 :=
          countGroupId_zero (fun f hf => h2 f (List.mem_cons_of_mem _ hf))
            (by rw [← heg]; exact h1.1) i
        omega

theorem countGroupId_le_one {st : ServerState} (hwf : WF st) (g i : JStr) :
    countGroupId st.registry g i ≤ 1 :=
  countGroupId_le_one_aux st.registry g i hwf.1 hwf.2.1 hwf.2.2.1

/-! ## Helper lemmas about deliveries, spilling and the slot store -/

@[simp] theorem fireTimers_registry (st : ServerState) (now : Nat) :
    (fireTimers st now).registry = st.registry := rfl

@[simp] theorem fireTimers_subs (st : ServerState) (now : Nat) :
    (fireTimers st now).subs = st.subs := rfl

@[simp] theorem fireTimers_idSeq (st : ServerState) (now : Nat) :
    (fireTimers st now).idSeq = st.idSeq := rfl

theorem mem_publishWs {subs : Subs} {h : Nat} {topic frame : JStr} {a : Act}
    (ha : a ∈ publishWs subs h topic frame) :
    ∃ p, p ∈ subs ∧ p.2 = topic ∧ p.1 ≠ h ∧ a = Act.deliver p.1 frame := by
  unfold publishWs at ha
  obtain ⟨p, hp, hpa⟩ := List.mem_map.mp ha
  have hf := List.of_mem_filter hp
  simp only [decide_eq_true_eq] at hf
  exact ⟨p, List.mem_of_mem_filter hp, hf.1, hf.2, hpa.symm⟩

theorem mem_publishApp {subs : Subs} {topic frame : JStr} {a : Act}
    (ha : a ∈ publishApp subs topic frame) :
    ∃ p, p ∈ subs ∧ p.2 = topic ∧ a = Act.deliver p.1 frame := by
  unfold publishApp at ha
  obtain ⟨p, hp, hpa⟩ := List.mem_map.mp ha
  have hf := List.of_mem_filter hp
  simp only [decide_eq_true_eq] at hf
  exact ⟨p, List.mem_of_mem_filter hp, hf, hpa.symm⟩

theorem spillStep_small {cfg : Config} {s : ServerState} {body : JStr} {now rand : Nat}
    (h : body.length ≤ cfg.maxPayload) :
    spillStep cfg s body now rand = (s, body) := by
  unfold spillStep
  rw [if_neg (by omega)]

theorem spillStep_big_out {cfg : Config} {s : ServerState} {body : JStr} {now rand : Nat}
    (h : cfg.maxPayload < body.length) :
    (spillStep cfg s body now rand).2 = jstr "get:" ++ generateID now s.idSeq rand := by
  unfold spillStep
  rw [if_pos h]

theorem spillStep_big_lm {cfg : Config} {s : ServerState} {body : JStr} {now rand : Nat}
    (h : cfg.maxPayload < body.length) :
    (spillStep cfg s body now rand).1.largeMessages
      = putSlot s.largeMessages (generateID now s.idSeq rand) body := by
  unfold spillStep
  rw [if_pos h]

theorem find?_key_filter (ms : List (JStr × JStr)) (p : JStr → Bool) (k : JStr)
    (hk : p k = true) :
    (ms.filter (fun kv => p kv.1)).find? (fun kv => decide (kv.1 = k))
      = ms.find? (fun kv => decide (kv.1 = k)) := by
  induction ms with
  | nil => rfl
  | cons kv t ih =>
      rw [List.filter_cons]
      by_cases hkey : kv.1 = k
      · rw [if_pos (show ((fun kv : JStr × JStr => p kv.1) kv = true) by simp [hkey, hk]),
          List.find?_cons_of_pos _ (by simp [hkey]),
          List.find?_cons_of_pos _ (by simp [hkey])]
      · by_cases hp2 : p kv.1 = true
        · rw [if_pos (show ((fun kv : JStr × JStr => p kv.1) kv = true) by simpa using hp2),
            List.find?_cons_of_neg _ (by simp [hkey]),
            List.find?_cons_of_neg _ (by simp [hkey]), ih]
        · rw [if_neg (show ¬ ((fun kv : JStr × JStr => p kv.1) kv = true) by simpa using hp2),
            List.find?_cons_of_neg _ (by simp [hkey]), ih]

theorem lookupSlot_filter_none {ms : List (JStr × JStr)} {p : JStr × JStr → Bool} {k : JStr}
    (h : lookupSlot ms k = none) : lookupSlot (ms.filter p) k = none := by
  unfold lookupSlot at h ⊢
  rw [Option.map_eq_none'] at h ⊢
  rw [List.find?_eq_none] at h ⊢
  intro kv hkv
  exact h kv (List.mem_of_mem_filter hkv)

theorem lookup_putSlot (ms : List (JStr × JStr)) (k v : JStr) :
    lookupSlot (putSlot ms k v) k = some v := by
  unfold lookupSlot putSlot
  rw [List.find?_append]
  have h1 : (ms.filter (fun kv => decide (kv.1 ≠ k))).find?
      (fun kv => decide (kv.1 = k)) = none := by
    rw [List.find?_eq_none]
    intro kv hkv
    have := List.of_mem_filter hkv
    simp only [decide_eq_true_eq] at this ⊢
    exact this
  rw [h1]
  simp [List.find?]

theorem lookup_putSlot_none {ms : List (JStr × JStr)} {k g v : JStr}
    (h : lookupSlot ms k = none) (hne : k ≠ g) :
    lookupSlot (putSlot ms g v) k = none := by
  unfold putSlot
  unfold lookupSlot at h ⊢
  rw [Option.map_eq_none'] at h ⊢
  rw [List.find?_eq_none] at h ⊢
  intro kv hkv
  rcases List.mem_append.mp hkv with hl | hr
  · exact h kv (List.mem_of_mem_filter hl)
  · simp only [List.mem_singleton] at hr
    subst hr
    simp only [decide_eq_true_eq]
    exact fun he => hne he.symm

theorem lookupSlot_removeSlot (ms : List (JStr × JStr)) (k : JStr) :
    lookupSlot (removeSlot ms k) k = none := by
  unfold lookupSlot removeSlot
  rw [Option.map_eq_none', List.find?_eq_none]
  intro kv hkv
  have := List.of_mem_filter hkv
  simp only [decide_eq_true_eq] at this ⊢
  exact this

theorem dueFor_of_mem {timers : List (Nat × JStr)} {t0 now : Nat} {k : JStr}
    (hmem : (t0, k) ∈ timers) (ht : t0 < now) : dueFor timers now k = true := by
  unfold dueFor
  rw [List.any_eq_true]
  exact ⟨(t0, k), hmem, by simp [ht]⟩

theorem dueFor_eq_false {timers : List (Nat × JStr)} {now : Nat} {k : JStr}
    (h : ∀ ft, (ft, k) ∈ timers → ¬ ft < now) : dueFor timers now k = false := by
  unfold dueFor
  rw [List.any_eq_false]
  intro t ht
  simp only [Bool.and_eq_true, decide_eq_true_eq, not_and]
  intro hlt heq
  exact h t.1 (by rw [← heq]; exact ht) hlt

theorem lookupSlot_fireTimers_keep {st : ServerState} {now : Nat} {k : JStr}
    (hk : dueFor st.timers now k = false) :
    lookupSlot (fireTimers st now).largeMessages k = lookupSlot st.largeMessages k := by
  show lookupSlot (st.largeMessages.filter (fun kv => ! dueFor st.timers now kv.1)) k = _
  unfold lookupSlot
  rw [find?_key_filter _ (fun x => ! dueFor st.timers now x) k (by simp [hk])]

theorem lookupSlot_fireTimers_due {st : ServerState} {now : Nat} {k : JStr}
    (h : dueFor st.timers now k = true) :
    lookupSlot (fireTimers st now).largeMessages k = none := by
  show lookupSlot (st.largeMessages.filter (fun kv => ! dueFor st.timers now kv.1)) k = none
  unfold lookupSlot
  rw [Option.map_eq_none', List.find?_eq_none]
  intro kv hkv
  have hp := List.of_mem_filter hkv
  simp only [decide_eq_true_eq]
  intro hkey
  rw [hkey, h] at hp
  exact absurd hp (by simp)

theorem handleIncoming_no_close (cfg : Config) (st : ServerState) (h : Nat) (db : JStr)
    (msg : JStr) (now rand : Nat) (hnd : Nat) :
    Act.closeTransport hnd ∉ (handleIncomingMessage cfg st h db msg now rand).2 := by
  unfold handleIncomingMessage
  split
  · simp
  · split
    · intro hmem
      obtain ⟨c, _, hc⟩ := List.mem_map.mp hmem
      simp at hc
    · split
      · intro hmem
        obtain ⟨p, _, _, _, hp⟩ := mem_publishWs hmem
        simp at hp
      · simp

theorem handleIncoming_groups (cfg : Config) (st : ServerState) (h : Nat) (db : JStr)
    (msg : JStr) (now rand : Nat) (d : JStr) :
    findGroup (handleIncomingMessage cfg st h db msg now rand).1.registry d
      = findGroup st.registry d := by
  rw [handleIncoming_registry, findGroup_ensureGroup]

theorem handleIncoming_deliver_frame {cfg : Config} {st : ServerState} {h : Nat}
    {db msg : JStr} {now rand : Nat} {h2 : Nat} {f : JStr}
    (hping : msg ≠ jstr "ping")
    (hmem : Act.deliver h2 f ∈ (handleIncomingMessage cfg st h db msg now rand).2) :
    f = (spillStep cfg (ensureReg st db) (parseTo msg).2 now rand).2 := by
  unfold handleIncomingMessage at hmem
  rw [if_neg hping] at hmem
  split at hmem
  · obtain ⟨c, _, hc⟩ := List.mem_map.mp hmem
    simp only [Act.deliver.injEq] at hc
    exact hc.2.symm
  · split at hmem
    · obtain ⟨p, _, _, _, hp⟩ := mem_publishWs hmem
      simp only [Act.deliver.injEq] at hp
      exact hp.2
    · simp at hmem

theorem handleIncoming_lm_big {cfg : Config} {st : ServerState} {h : Nat}
    {db msg : JStr} {now rand : Nat}
    (hping : msg ≠ jstr "ping") (hbig : cfg.maxPayload < (parseTo msg).2.length) :
    (handleIncomingMessage cfg st h db msg now rand).1.largeMessages
      = putSlot st.largeMessages (generateID now st.idSeq rand) (parseTo msg).2 := by
  unfold handleIncomingMessage
  rw [if_neg hping]
  have hl : (spillStep cfg (ensureReg st db) (parseTo msg).2 now rand).1.largeMessages
      = putSlot st.largeMessages (generateID now st.idSeq rand) (parseTo msg).2 :=
    spillStep_big_lm hbig
  split
  · exact hl
  · split
    · exact hl
    · exact hl

theorem handleIncoming_timers_big {cfg : Config} {st : ServerState} {h : Nat}
    {db msg : JStr} {now rand : Nat}
    (hping : msg ≠ jstr "ping") (hbig : cfg.maxPayload < (parseTo msg).2.length) :
    (handleIncomingMessage cfg st h db msg now rand).1.timers
      = st.timers ++ [(now + 60000, generateID now st.idSeq rand)] := by
  unfold handleIncomingMessage
  rw [if_neg hping]
  have hl : (spillStep cfg (ensureReg st db) (parseTo msg).2 now rand).1.timers
      = st.timers ++ [(now + 60000, generateID now st.idSeq rand)] :=
    spillStep_timers cfg (ensureReg st db) (parseTo msg).2 now rand hbig
  split
  · exact hl
  · split
    · exact hl
    · exact hl

/-! ## Handshake bridge lemmas -/

theorem versionOkB_iff (v : Option JStr) :
    versionOkB v = true ↔ ∃ s, v = some s ∧ majorOf s = jstr "1" := by
  cases v <;> simp [versionOkB]

theorem idOkB_iff (i : Option JStr) :
    idOkB i = true ↔ ∃ s, i = some s ∧ 5 ≤ s.length := by
  cases i <;> simp [idOkB]

theorem tokenBadB_iff (cfg : Config) (t : Option JStr) :
    tokenBadB cfg t = false ↔ ∀ tok, cfg.token = some tok → t = some tok := by
  cases htok : cfg.token with
  | none => simp [tokenBadB, htok]
  | some tok =>
      simp only [tokenBadB, htok, decide_eq_false_iff_not, not_not]
      constructor
      · intro h tok2 he
        have h2 := Option.some_inj.mp he
        rw [← h2]
        exact h
      · intro h
        exact h tok rfl

theorem upgradeCheck_none_iff (cfg : Config) (q : Query) :
    upgradeCheck cfg q = none ↔
      (versionOkB q.v = true ∧ idOkB q.id = true ∧ tokenBadB cfg q.t = false) := by
  unfold upgradeCheck
  by_cases hv : versionOkB q.v = false
  · rw [if_pos hv]
    simp [hv]
  · rw [if_neg hv]
    by_cases hi : idOkB q.id = false
    · rw [if_pos hi]
      simp only [Bool.not_eq_false] at hv
      simp [hv, hi]
    · rw [if_neg hi]
      simp only [Bool.not_eq_false] at hv hi
      by_cases ht : tokenBadB cfg q.t
      · rw [if_pos ht]
        simp [hv, hi, ht]
      · rw [if_neg ht]
        simp only [Bool.not_eq_true] at ht
        simp [hv, hi, ht]

theorem upgradeCheck_version (cfg : Config) (q : Query) (hv : versionOkB q.v = false) :
    upgradeCheck cfg q = some (err409 q.v) := by
  unfold upgradeCheck
  rw [if_pos hv]

theorem upgradeCheck_id (cfg : Config) (q : Query) (hv : versionOkB q.v = true)
    (hi : idOkB q.id = false) : upgradeCheck cfg q = some (err500 q.id) := by
  unfold upgradeCheck
  rw [if_neg (by simp [hv]), if_pos hi]

theorem upgradeCheck_token (cfg : Config) (q : Query) (hv : versionOkB q.v = true)
    (hi : idOkB q.id = true) (ht : tokenBadB cfg q.t = true) :
    upgradeCheck cfg q = some err403 := by
  unfold upgradeCheck
  rw [if_neg (by simp [hv]), if_neg (by simp [hi]), if_pos ht]

theorem connectStep_reject {cfg : Config} {st : ServerState} {db : JStr} {q : Query}
    {h now : Nat} {err : JStr} (he : upgradeCheck cfg q = some err) :
    connectStep cfg st db q h now = (st, [Act.httpResp err err]) := by
  unfold connectStep
  rw [he]

theorem findGroup_of_not_key {reg : Registry} {db : JStr}
    (h : db ∉ reg.map (fun e => e.1)) : findGroup reg db = [] := by
  unfold findGroup
  have hn : reg.find? (fun e => decide (e.1 = db)) = none := by
    rw [List.find?_eq_none]
    intro e he
    simp only [decide_eq_true_eq]
    exact fun heq => h (List.mem_map.mpr ⟨e, he, heq⟩)
  rw [hn]

theorem closeSocket_lm (s : ServerState) (db : JStr) (hnd : Nat) :
    (closeSocket s db hnd).1.largeMessages = s.largeMessages := by
  unfold closeSocket
  split <;> rfl

theorem connectStep_lm (cfg : Config) (s : ServerState) (db : JStr) (q : Query)
    (h now : Nat) : (connectStep cfg s db q h now).1.largeMessages = s.largeMessages := by
  unfold connectStep
  split
  · rfl
  · split
    · next old hfind =>
        show (closeSocket (ensureReg s db) db old.handle).1.largeMessages = s.largeMessages
        rw [closeSocket_lm]
        rfl
    · rfl

theorem handleIncoming_lm_cases (cfg : Config) (s : ServerState) (h : Nat)
    (db msg : JStr) (now rand : Nat) :
    (handleIncomingMessage cfg s h db msg now rand).1.largeMessages = s.largeMessages
    ∨ (handleIncomingMessage cfg s h db msg now rand).1.largeMessages
        = putSlot s.largeMessages (generateID now s.idSeq rand) (parseTo msg).2 := by
  unfold handleIncomingMessage
  split
  · exact Or.inl rfl
  · have hsp : (spillStep cfg (ensureReg s db) (parseTo msg).2 now rand).1.largeMessages
        = s.largeMessages
      ∨ (spillStep cfg (ensureReg s db) (parseTo msg).2 now rand).1.largeMessages
        = putSlot s.largeMessages (generateID now s.idSeq rand) (parseTo msg).2 := by
      unfold spillStep
      split
      · exact Or.inr rfl
      · exact Or.inl rfl
    split
    · exact hsp
    · split
      · exact hsp
      · exact hsp

/-! ## The claims -/

/-- C6: The upgrade handshake admits a connection iff the version query
parameter's major component equals `1`, the id is a string of length at
least 5, and the token matches when one is configured; otherwise it
rejects without upgrading, with status line `409 Unsupported client IPC
version "..."` for a bad version, `500 Invalid IPC client id ...` for a
bad id, and `403 Unauthorized` for a bad token, checked in that order. -/
theorem C6_handshake_validation (cfg : Config) (q : Query) (st : ServerState)
    (db : JStr) (h now : Nat) :
    (upgradeCheck cfg q = none ↔
      ((∃ s, q.v = some s ∧ majorOf s = jstr "1")
       ∧ (∃ s, q.id = some s ∧ 5 ≤ s.length)
       ∧ (∀ tok, cfg.token = some tok → q.t = some tok)))
    ∧ (¬ (∃ s, q.v = some s ∧ majorOf s = jstr "1") →
        upgradeCheck cfg q = some (jstr "409 Unsupported client IPC version \""
          ++ q.v.getD (jstr "undefined") ++ jstr "\". Update acebase-ipc-server package"))
    ∧ ((∃ s, q.v = some s ∧ majorOf s = jstr "1") →
        ¬ (∃ s, q.id = some s ∧ 5 ≤ s.length) →
        upgradeCheck cfg q = some (jstr "500 Invalid IPC client id "
          ++ q.id.getD (jstr "undefined")))
    ∧ ((∃ s, q.v = some s ∧ majorOf s = jstr "1") →
        (∃ s, q.id = some s ∧ 5 ≤ s.length) →
        ¬ (∀ tok, cfg.token = some tok → q.t = some tok) →
        upgradeCheck cfg q = some (jstr "403 Unauthorized"))
    ∧ (∀ err, upgradeCheck cfg q = some err →
        step cfg st (Ev.connect db q h now) = (fireTimers st now, [Act.httpResp err err])) := by
  refine ⟨?_, ?_, ?_, ?_, ?_⟩
  · rw [upgradeCheck_none_iff, versionOkB_iff, idOkB_iff, tokenBadB_iff]
  · intro hv
    have hvb : versionOkB q.v = false := by
      cases hb : versionOkB q.v
      · rfl
      · exact absurd ((versionOkB_iff q.v).mp hb) hv
    exact upgradeCheck_version cfg q hvb
  · intro hv hi
    have hib : idOkB q.id = false := by
      cases hb : idOkB q.id
      · rfl
      · exact absurd ((idOkB_iff q.id).mp hb) hi
    exact upgradeCheck_id cfg q ((versionOkB_iff q.v).mpr hv) hib
  · intro hv hi ht
    have htb : tokenBadB cfg q.t = true := by
      cases hb : tokenBadB cfg q.t
      · exact absurd ((tokenBadB_iff cfg q.t).mp hb) ht
      · rfl
    exact upgradeCheck_token cfg q ((versionOkB_iff q.v).mpr hv) ((idOkB_iff q.id).mpr hi) htb
  · intro err he
    show connectStep cfg (fireTimers st now) db q h now = _
    exact connectStep_reject he

/-- Witness for C6: a client announcing version `2.0.0` is rejected with
the `409` status line. -/
theorem C6_handshake_validation_witness :
    (¬ (∃ s, (some (jstr "2.0.0") : Option JStr) = some s ∧ majorOf s = jstr "1"))
    ∧ upgradeCheck { maxPayload := 16384, token := none }
        { id := some (jstr "client1"), v := some (jstr "2.0.0"), t := none, msg := none }
        = some (jstr "409 Unsupported client IPC version \""
            ++ (some (jstr "2.0.0") : Option JStr).getD (jstr "undefined")
            ++ jstr "\". Update acebase-ipc-server package") := by
  have hv : ¬ (∃ s, (some (jstr "2.0.0") : Option JStr) = some s ∧ majorOf s = jstr "1") := by
    rintro ⟨s, hs, hmaj⟩
    rw [Option.some_inj] at hs
    subst hs
    exact absurd hmaj (by decide)
  exact ⟨hv, (C6_handshake_validation { maxPayload := 16384, token := none }
    { id := some (jstr "client1"), v := some (jstr "2.0.0"), t := none, msg := none }
    initState (jstr "mydb") 0 0).2.1 hv⟩

/-- C8: Every slot id produced by the generator is a 24-character base-36
string formed by concatenating three zero-padded 8-character segments: the
current timestamp, a sequence counter that increases monotonically modulo
`36 ^ 8` across successive calls, and a random value below `36 ^ 8`.  The
hypotheses record that the timestamp, the stored sequence and the random
draw are below `36 ^ 8` (true of `Date.now()` until the year 2059 and
always true of the other two). -/
theorem C8_generateID_shape (now seq rand : Nat)
    (hnow : now < maxNr) (hseq : seq < maxNr) (hrand : rand < maxNr) :
    (generateID now seq rand).length = 24
    ∧ (pad8 (natToB36 now)).length = 8
    ∧ (pad8 (natToB36 (nextSeq seq))).length = 8
    ∧ (pad8 (natToB36 rand)).length = 8
    ∧ nextSeq seq = (seq + 1) % maxNr
    ∧ (∀ c ∈ generateID now seq rand, isB36 c) := by
  have hm : maxNr = 36 ^ (7 + 1) := by unfold maxNr; norm_num
  have l1 : (natToB36 now).length ≤ 8 := by
    have := natToB36_length_le 7 now (by rw [← hm]; exact hnow)
    omega
  have hnseq : nextSeq seq < maxNr := by
    unfold nextSeq
    split
    · exact maxNr_pos
    · omega
  have l2 : (natToB36 (nextSeq seq)).length ≤ 8 := by
    have := natToB36_length_le 7 (nextSeq seq) (by rw [← hm]; exact hnseq)
    omega
  have l3 : (natToB36 rand).length ≤ 8 := by
    have := natToB36_length_le 7 rand (by rw [← hm]; exact hrand)
    omega
  have p1 := pad8_length l1
  have p2 := pad8_length l2
  have p3 := pad8_length l3
  refine ⟨?_, p1, p2, p3, nextSeq_mod hseq, ?_⟩
  · unfold generateID
    simp only [List.length_append]
    omega
  · intro c hc
    unfold generateID at hc
    have hpad : ∀ s : JStr, c ∈ pad8 s → (∀ x ∈ s, isB36 x) → isB36 c := by
      intro s hcs hall
      unfold pad8 at hcs
      rcases List.mem_append.mp hcs with h1 | h2
      · rw [List.eq_of_mem_replicate h1]
        decide
      · exact hall c h2
    rcases List.mem_append.mp hc with h12 | h3
    · rcases List.mem_append.mp h12 with h1 | h2
      · exact hpad _ h1 (fun x hx => natToB36_mem x hx)
      · exact hpad _ h2 (fun x hx => natToB36_mem x hx)
    · exact hpad _ h3 (fun x hx => natToB36_mem x hx)

/-- Witness for C8 at a realistic millisecond timestamp. -/
theorem C8_generateID_shape_witness :
    (1700000000000 < maxNr ∧ 0 < maxNr ∧ 5 < maxNr)
    ∧ (generateID 1700000000000 0 5).length = 24 := by
  have h1 : 1700000000000 < maxNr := by norm_num [maxNr]
  have h2 : 0 < maxNr := by norm_num [maxNr]
  have h3 : 5 < maxNr := by norm_num [maxNr]
  exact ⟨⟨h1, h2, h3⟩, (C8_generateID_shape 1700000000000 0 5 h1 h2 h3).1⟩

/-- C1: evidence of the bug.  With `client1` and `client2` connected to
group `mydb`, `client1` sending `to:client2;hello` results in the single
delivery of the frame `hello` to `client2`'s socket — not `msg:hello`: the
string branch of `sendMessage` (src/server.ts line 153) forwards string
payloads verbatim, although the file's own protocol comment (line 53)
and the spec promise a `msg:` tag on messages from other peers. -/
theorem C1_direct_delivery_lacks_msg_tag :
    (step { maxPayload := 16384, token := none }
      (runState { maxPayload := 16384, token := none } initState
        [Ev.connect (jstr "mydb")
          { id := some (jstr "client1"), v := some (jstr "1.0.0"), t := none, msg := none } 1 100,
         Ev.connect (jstr "mydb")
          { id := some (jstr "client2"), v := some (jstr "1.0.0"), t := none, msg := none } 2 200])
      (Ev.wsMessage (jstr "mydb") 1 (jstr "to:client2;hello") 300 7)).2
      = [Act.deliver 2 (jstr "hello")]
    ∧ Act.deliver 2 (jstr "msg:hello")
      ∉ (step { maxPayload := 16384, token := none }
        (runState { maxPayload := 16384, token := none } initState
          [Ev.connect (jstr "mydb")
            { id := some (jstr "client1"), v := some (jstr "1.0.0"), t := none, msg := none } 1 100,
           Ev.connect (jstr "mydb")
            { id := some (jstr "client2"), v := some (jstr "1.0.0"), t := none, msg := none } 2 200])
        (Ev.wsMessage (jstr "mydb") 1 (jstr "to:client2;hello") 300 7)).2 := by
  constructor
  · decide
  · decide

/-- C7 counterexample: a frame that starts with `to:` and contains no `;`
is not dropped.  With peers `abcde` (socket 2) and `fghij` (socket 1) in
group `mydb`, socket 1 sending `to:abcdeZ` makes the router compute the
recipient `msg.slice(3, -1) = abcde` and forward the whole original frame
to peer `abcde`. -/
theorem C7_counterexample_forwarded_without_semicolon :
    Act.deliver 2 (jstr "to:abcdeZ")
      ∈ (step { maxPayload := 16384, token := none }
          (runState { maxPayload := 16384, token := none } initState
            [Ev.connect (jstr "mydb")
              { id := some (jstr "abcde"), v := some (jstr "1.0.0"), t := none, msg := none } 2 100,
             Ev.connect (jstr "mydb")
              { id := some (jstr "fghij"), v := some (jstr "1.0.0"), t := none, msg := none } 1 150])
          (Ev.wsMessage (jstr "mydb") 1 (jstr "to:abcdeZ") 300 7)).2 := by
  decide

/-- C7 (amended): frame handling is total and never disconnects the
sender — processing any inbound frame emits no transport close, leaves
every group's client list unchanged and leaves the subscription table
unchanged; for frames `to:<r>;<b>` the first `;` delimits the recipient
from the body and further `;` in the body are preserved; but a `to:`
frame without any `;` is not dropped: the recipient becomes the text
strictly between the tag and the final character and the forwarded body
is the entire original frame (so it can still be forwarded, or broadcast
when that recipient text is empty). -/
theorem C7_amended_totality_and_delimiter :
    (∀ (cfg : Config) (st : ServerState) (h : Nat) (db msg : JStr) (now rand hnd : Nat),
      Act.closeTransport hnd ∉ (handleIncomingMessage cfg st h db msg now rand).2
      ∧ (∀ d, findGroup (handleIncomingMessage cfg st h db msg now rand).1.registry d
          = findGroup st.registry d)
      ∧ (handleIncomingMessage cfg st h db msg now rand).1.subs = st.subs)
    ∧ (∀ r b : JStr, ';' ∉ r → parseTo (jstr "to:" ++ r ++ ';' :: b) = (r, b))
    ∧ (∀ s : JStr, ';' ∉ s →
        parseTo (jstr "to:" ++ s) = (s.dropLast, jstr "to:" ++ s)) := by
  refine ⟨?_, parseTo_semi, parseTo_noSemi⟩
  intro cfg st h db msg now rand hnd
  exact ⟨handleIncoming_no_close cfg st h db msg now rand hnd,
    handleIncoming_groups cfg st h db msg now rand,
    handleIncoming_subs cfg st h db msg now rand⟩

/-- Witness for the amended C7 at concrete frames. -/
theorem C7_amended_totality_and_delimiter_witness :
    (';' ∉ jstr "abcde" ∧ parseTo (jstr "to:" ++ jstr "abcde" ++ ';' :: jstr "x;y")
        = (jstr "abcde", jstr "x;y"))
    ∧ (';' ∉ jstr "bZ" ∧ parseTo (jstr "to:" ++ jstr "bZ")
        = ((jstr "bZ").dropLast, jstr "to:" ++ jstr "bZ"))
    ∧ Act.closeTransport 5
        ∉ (handleIncomingMessage { maxPayload := 16384, token := none } initState 1
            (jstr "mydb") (jstr "to:zzz") 0 0).2 := by
  refine ⟨⟨by decide, ?_⟩, ⟨by decide, ?_⟩, ?_⟩
  · exact C7_amended_totality_and_delimiter.2.1 (jstr "abcde") (jstr "x;y") (by decide)
  · exact C7_amended_totality_and_delimiter.2.2 (jstr "bZ") (by decide)
  · exact (C7_amended_totality_and_delimiter.1 { maxPayload := 16384, token := none }
      initState 1 (jstr "mydb") (jstr "to:zzz") 0 0 5).1

/-- C9: a peer that addresses a frame to its own id receives it back: the
recipient filter `client.id === to` does not exclude the sender, unlike
the `all` and unprefixed broadcast paths. -/
theorem C9_self_directed_delivery (cfg : Config) (st : ServerState) (db : JStr)
    (p : Client) (body : JStr) (now rand : Nat)
    (hp : p ∈ findGroup st.registry db)
    (hsemi : ';' ∉ p.id) (hne : p.id ≠ []) (hnall : p.id ≠ jstr "all")
    (hsize : body.length ≤ cfg.maxPayload) :
    Act.deliver p.handle body
      ∈ (handleIncomingMessage cfg st p.handle db
          (jstr "to:" ++ p.id ++ ';' :: body) now rand).2 := by
  have hparse := parseTo_semi p.id body hsemi
  have hping : (jstr "to:" ++ p.id ++ ';' :: body) ≠ jstr "ping" := by
    intro he
    have h2 := congrArg (fun l => List.head? l) he
    simp [jstr] at h2
  unfold handleIncomingMessage
  rw [if_neg hping, hparse]
  rw [if_pos (show ((p.id, body) : JStr × JStr).1 ≠ [] from hne)]
  show Act.deliver p.handle body ∈ List.map _ _
  apply List.mem_map.mpr
  refine ⟨p, ?_, ?_⟩
  · unfold forwardTargets
    rw [if_neg (show ((p.id, body) : JStr × JStr).1 ≠ jstr "all" from hnall)]
    apply List.mem_filter.mpr
    refine ⟨?_, by simp⟩
    rw [findGroup_ensureGroup]
    exact hp
  · show Act.deliver p.handle
        (sendMessageData (spillStep cfg (ensureReg st db) (p.id, body).2 now rand).2)
      = Act.deliver p.handle body
    have hs : spillStep cfg (ensureReg st db) ((p.id, body) : JStr × JStr).2 now rand
        = (ensureReg st db, body) := spillStep_small hsize
    rw [hs]
    rfl

/-- Witness for C9: `client1` sends `to:client1;hi` and gets `hi` back. -/
theorem C9_self_directed_delivery_witness :
    ((⟨jstr "client1", jstr "mydb", 100, 1⟩ : Client)
        ∈ findGroup (runState { maxPayload := 16384, token := none } initState
          [Ev.connect (jstr "mydb")
            { id := some (jstr "client1"), v := some (jstr "1.0.0"), t := none, msg := none } 1 100]).registry
          (jstr "mydb"))
    ∧ Act.deliver 1 (jstr "hi")
      ∈ (handleIncomingMessage { maxPayload := 16384, token := none }
          (runState { maxPayload := 16384, token := none } initState
            [Ev.connect (jstr "mydb")
              { id := some (jstr "client1"), v := some (jstr "1.0.0"), t := none, msg := none } 1 100])
          1 (jstr "mydb") (jstr "to:" ++ jstr "client1" ++ ';' :: jstr "hi") 300 7).2 := by
  refine ⟨by decide, ?_⟩
  exact C9_self_directed_delivery { maxPayload := 16384, token := none } _ (jstr "mydb")
    ⟨jstr "client1", jstr "mydb", 100, 1⟩ (jstr "hi") 300 7
    (by decide) (by decide) (by decide) (by decide) (by decide)

/-- C4: after the optional `to:` tag is stripped, a body exceeding
`maxPayload` is stored in the large-message store under the freshly
generated slot id with a 60-second deletion timer, and every frame
delivered for this inbound message is exactly `get:<slotId>`; and in
general every frame delivered for a non-`ping` inbound message either is
at most `maxPayload` long or is a `get:<slotId>` reference. -/
theorem C4_spill_threshold (cfg : Config) (st : ServerState) (h : Nat) (db msg : JStr)
    (now rand : Nat) (hping : msg ≠ jstr "ping") :
    (cfg.maxPayload < (parseTo msg).2.length →
      lookupSlot (handleIncomingMessage cfg st h db msg now rand).1.largeMessages
          (generateID now st.idSeq rand) = some (parseTo msg).2
      ∧ (now + 60000, generateID now st.idSeq rand)
          ∈ (handleIncomingMessage cfg st h db msg now rand).1.timers
      ∧ (∀ h2 f, Act.deliver h2 f ∈ (handleIncomingMessage cfg st h db msg now rand).2 →
          f = jstr "get:" ++ generateID now st.idSeq rand))
    ∧ (∀ h2 f, Act.deliver h2 f ∈ (handleIncomingMessage cfg st h db msg now rand).2 →
        f.length ≤ cfg.maxPayload ∨ ∃ sid, f = jstr "get:" ++ sid) := by
  constructor
  · intro hbig
    refine ⟨?_, ?_, ?_⟩
    · rw [handleIncoming_lm_big hping hbig]
      exact lookup_putSlot _ _ _
    · rw [handleIncoming_timers_big hping hbig]
      exact List.mem_append.mpr (Or.inr (List.mem_singleton.mpr rfl))
    · intro h2 f hmem
      rw [handleIncoming_deliver_frame hping hmem]
      exact spillStep_big_out hbig
  · intro h2 f hmem
    rw [handleIncoming_deliver_frame hping hmem]
    by_cases hbig : cfg.maxPayload < (parseTo msg).2.length
    · right
      exact ⟨generateID now (ensureReg st db).idSeq rand, spillStep_big_out hbig⟩
    · left
      have hs : spillStep cfg (ensureReg st db) (parseTo msg).2 now rand
          = (ensureReg st db, (parseTo msg).2) := spillStep_small (by omega)
      rw [hs]
      show (parseTo msg).2.length ≤ cfg.maxPayload
      omega

/-- Witness for C4: with `maxPayload = 5`, the 10-byte body of
`to:client2;helloworld` is spilled and stored under the generated id. -/
theorem C4_spill_threshold_witness :
    (jstr "to:client2;helloworld" ≠ jstr "ping"
      ∧ ({ maxPayload := 5, token := none } : Config).maxPayload
          < (parseTo (jstr "to:client2;helloworld")).2.length)
    ∧ lookupSlot (handleIncomingMessage { maxPayload := 5, token := none } initState 1
          (jstr "mydb") (jstr "to:client2;helloworld") 300 7).1.largeMessages
        (generateID 300 initState.idSeq 7) = some (parseTo (jstr "to:client2;helloworld")).2 := by
  refine ⟨⟨by decide, by decide⟩, ?_⟩
  exact ((C4_spill_threshold { maxPayload := 5, token := none } initState 1 (jstr "mydb")
    (jstr "to:client2;helloworld") 300 7 (by decide)).1 (by decide)).1

/-- C10: every lookup of a group's peer list registers the group: a
`GET /{group}/clients` for an unknown group name appends an empty entry
for it (and answers the empty JSON array), and no event ever removes a
group key, so the key set grows monotonically. -/
theorem C10_registry_key_growth (cfg : Config) (st : ServerState) (db : JStr) (now : Nat) :
    (db ∉ st.registry.map (fun e => e.1) →
      (step cfg st (Ev.httpClients db now)).1.registry = st.registry ++ [(db, [])]
      ∧ (step cfg st (Ev.httpClients db now)).2 = [Act.httpResp (jstr "200") (jstr "[]")])
    ∧ (∀ e : Ev, ∀ g ∈ st.registry.map (fun f => f.1),
        g ∈ (step cfg st e).1.registry.map (fun f => f.1)) := by
  constructor
  · intro hmem
    constructor
    · show ensureGroup st.registry db = _
      unfold ensureGroup
      rw [if_neg hmem]
    · show [Act.httpResp (jstr "200")
        (clientsJson (findGroup (ensureGroup (fireTimers st now).registry db) db))] = _
      have h1 : findGroup (ensureGroup (fireTimers st now).registry db) db = [] := by
        rw [findGroup_ensureGroup]
        exact findGroup_of_not_key hmem
      rw [h1]
      rfl
  · intro e g hg
    cases e with
    | connect db2 q h2 now2 =>
        show g ∈ ((connectStep cfg (fireTimers st now2) db2 q h2 now2).1.registry.map
          (fun f => f.1))
        unfold connectStep
        split
        · exact hg
        · split
          · next old hfind =>
              rw [openAdmit_keys, closeSocket_keys]
              have he : (ensureReg (fireTimers st now2) db2).registry
                  = ensureGroup st.registry db2 := rfl
              rw [he, ensureGroup_idem]
              exact mem_keys_ensureGroup_of_mem hg
          · next hfind =>
              rw [openAdmit_keys]
              exact mem_keys_ensureGroup_of_mem hg
    | wsClose db2 h2 now2 =>
        show g ∈ ((closeSocket (fireTimers st now2) db2 h2).1.registry.map (fun f => f.1))
        rw [closeSocket_keys]
        exact mem_keys_ensureGroup_of_mem hg
    | wsMessage db2 h2 fr now2 rand2 =>
        show g ∈ ((handleIncomingMessage cfg (fireTimers st now2) h2 db2 fr
          now2 rand2).1.registry.map (fun f => f.1))
        rw [handleIncoming_registry]
        exact mem_keys_ensureGroup_of_mem hg
    | httpClients db2 now2 =>
        exact mem_keys_ensureGroup_of_mem hg
    | httpSend db2 q body now2 rand2 =>
        show g ∈ ((sendStep cfg (fireTimers st now2) db2 q body now2 rand2).1.registry.map
          (fun f => f.1))
        unfold sendStep
        split
        · exact mem_keys_ensureGroup_of_mem hg
        · split
          · exact mem_keys_ensureGroup_of_mem hg
          · rw [handleIncoming_registry]
            exact mem_keys_ensureGroup_of_mem (mem_keys_ensureGroup_of_mem hg)
    | httpReceive db2 q now2 =>
        show g ∈ ((receiveStep cfg (fireTimers st now2) db2 q).1.registry.map (fun f => f.1))
        rw [receiveStep_registry]
        exact mem_keys_ensureGroup_of_mem hg

/-- Witness for C10: querying clients of the unknown group `newdb` on the
fresh server registers it. -/
theorem C10_registry_key_growth_witness :
    (jstr "newdb" ∉ (initState.registry.map (fun e => e.1)))
    ∧ (step { maxPayload := 16384, token := none } initState
        (Ev.httpClients (jstr "newdb") 0)).1.registry
      = initState.registry ++ [(jstr "newdb", [])] := by
  refine ⟨by decide, ?_⟩
  exact ((C10_registry_key_growth { maxPayload := 16384, token := none } initState
    (jstr "newdb") 0).1 (by decide)).1

/-- C3: in every reachable state (traces whose new connections carry fresh
transport handles), the registry holds at most one peer per
`(group, id)` pair; and on admission of a challenger whose id is already
present, the first emitted action is closing the incumbent's transport,
strictly before the challenger's `accept`. -/
theorem C3_unique_ids_and_eviction_order (cfg : Config) :
    (∀ (evs : List Ev), okTraceB cfg initState evs = true →
      ∀ g i, countGroupId (runState cfg initState evs).registry g i ≤ 1)
    ∧ (∀ (st : ServerState) (db : JStr) (q : Query) (h now : Nat) (old : Client),
        upgradeCheck cfg q = none →
        (findGroup (ensureGroup st.registry db) db).find?
          (fun c => decide (c.id = q.id.getD [])) = some old →
        ∃ rest, (step cfg st (Ev.connect db q h now)).2
            = Act.closeTransport old.handle :: rest ∧ Act.accept h ∈ rest) := by
  constructor
  · intro evs hok g i
    exact countGroupId_le_one (wf_runState cfg evs initState wf_initState hok) g i
  · intro st db q h now old hchk hfind
    show ∃ rest, (connectStep cfg (fireTimers st now) db q h now).2
        = Act.closeTransport old.handle :: rest ∧ Act.accept h ∈ rest
    unfold connectStep
    simp only [hchk, fireTimers_registry, hfind]
    refine ⟨_, rfl, ?_⟩
    apply List.mem_append.mpr
    right
    show Act.accept h ∈ [Act.accept h, Act.deliver h (welcomeFrame cfg)]
      ++ publishApp (crossSubs db (q.id.getD []) h
          (findGroup (closeSocket (ensureReg (fireTimers st now) db) db
            old.handle).1.registry db)
          (closeSocket (ensureReg (fireTimers st now) db) db old.handle).1.subs)
        topicAll (jstr "connect:" ++ q.id.getD [])
    exact List.mem_append.mpr (Or.inl (List.mem_cons_self _ _))

/-- Witness for C3: a trace in which `client1` reconnects on a new socket;
the registry count stays at one and the eviction-close precedes the
admission in the emitted actions. -/
theorem C3_unique_ids_and_eviction_order_witness :
    (okTraceB { maxPayload := 16384, token := none } initState
        [Ev.connect (jstr "mydb")
          { id := some (jstr "client1"), v := some (jstr "1.0.0"), t := none, msg := none } 1 100,
         Ev.connect (jstr "mydb")
          { id := some (jstr "client1"), v := some (jstr "1.0.0"), t := none, msg := none } 3 400]
        = true
      ∧ countGroupId (runState { maxPayload := 16384, token := none } initState
          [Ev.connect (jstr "mydb")
            { id := some (jstr "client1"), v := some (jstr "1.0.0"), t := none, msg := none } 1 100,
           Ev.connect (jstr "mydb")
            { id := some (jstr "client1"), v := some (jstr "1.0.0"), t := none, msg := none } 3 400]).registry
          (jstr "mydb") (jstr "client1") ≤ 1)
    ∧ (∃ rest, (step { maxPayload := 16384, token := none }
          (runState { maxPayload := 16384, token := none } initState
            [Ev.connect (jstr "mydb")
              { id := some (jstr "client1"), v := some (jstr "1.0.0"), t := none, msg := none } 1 100])
          (Ev.connect (jstr "mydb")
            { id := some (jstr "client1"), v := some (jstr "1.0.0"), t := none, msg := none } 3 400)).2
        = Act.closeTransport 1 :: rest ∧ Act.accept 3 ∈ rest) := by
  refine ⟨⟨by decide, ?_⟩, ?_⟩
  · exact (C3_unique_ids_and_eviction_order { maxPayload := 16384, token := none }).1
      [Ev.connect (jstr "mydb")
        { id := some (jstr "client1"), v := some (jstr "1.0.0"), t := none, msg := none } 1 100,
       Ev.connect (jstr "mydb")
        { id := some (jstr "client1"), v := some (jstr "1.0.0"), t := none, msg := none } 3 400]
      (by decide) (jstr "mydb") (jstr "client1")
  · exact (C3_unique_ids_and_eviction_order { maxPayload := 16384, token := none }).2
      (runState { maxPayload := 16384, token := none } initState
        [Ev.connect (jstr "mydb")
          { id := some (jstr "client1"), v := some (jstr "1.0.0"), t := none, msg := none } 1 100])
      (jstr "mydb")
      { id := some (jstr "client1"), v := some (jstr "1.0.0"), t := none, msg := none }
      3 400 ⟨jstr "client1", jstr "mydb", 100, 1⟩ (by decide) (by decide)

/-- C2 counterexample: cross-group service broadcasts.  With `peerA`
connected to group `adb` (socket 1), the admission of `peerB` into the
distinct group `bdb` publishes `connect:peerB` on the single global `all`
topic, and socket 1 — a peer of the other group — receives it. -/
theorem C2_counterexample_connect_leaks_across_groups :
    ((findGroup (runState { maxPayload := 16384, token := none } initState
        [Ev.connect (jstr "adb")
          { id := some (jstr "peerA"), v := some (jstr "1.0.0"), t := none, msg := none } 1 100]).registry
        (jstr "adb")).map (fun c => c.handle) = [1])
    ∧ (jstr "adb" ≠ jstr "bdb")
    ∧ Act.deliver 1 (jstr "connect:peerB")
      ∈ (step { maxPayload := 16384, token := none }
          (runState { maxPayload := 16384, token := none } initState
            [Ev.connect (jstr "adb")
              { id := some (jstr "peerA"), v := some (jstr "1.0.0"), t := none, msg := none } 1 100])
          (Ev.connect (jstr "bdb")
            { id := some (jstr "peerB"), v := some (jstr "1.0.0"), t := none, msg := none } 2 200)).2 := by
  refine ⟨by decide, by decide, by decide⟩

/-- C2 (amended): peer frames do not cross groups — every delivery
produced by handling an inbound message from a registered peer of group
`db` goes to a socket that belongs to a client of group `db` (for any
well-formed state whose group names are hyphen-free, so that the
`from-<group>-<id>` topic strings of distinct groups cannot collide);
however, as the counterexample shows, the `connect:`/`disconnect:`
service broadcasts are published on the global `all` topic and do cross
group boundaries. -/
theorem C2_amended_peer_frames_stay_in_group (cfg : Config) (st : ServerState)
    (h : Nat) (db msg : JStr) (now rand : Nat)
    (hwf : WF st)
    (hnoh : ∀ e ∈ st.registry, '-' ∉ e.1)
    (hsender : ∃ c ∈ findGroup st.registry db, c.handle = h) :
    ∀ h2 f, Act.deliver h2 f ∈ (handleIncomingMessage cfg st h db msg now rand).2 →
      ∃ c ∈ findGroup st.registry db, c.handle = h2 := by
  intro h2 f hmem
  unfold handleIncomingMessage at hmem
  split at hmem
  · simp only [List.mem_singleton, Act.deliver.injEq] at hmem
    obtain ⟨c, hc, hch⟩ := hsender
    exact ⟨c, hc, by rw [hch, hmem.1]⟩
  · split at hmem
    · obtain ⟨c, hcT, hc⟩ := List.mem_map.mp hmem
      simp only [Act.deliver.injEq] at hc
      refine ⟨c, ?_, hc.1⟩
      have hcT2 : c ∈ findGroup (ensureGroup st.registry db) db := by
        unfold forwardTargets at hcT
        split at hcT
        · exact List.mem_of_mem_filter hcT
        · exact List.mem_of_mem_filter hcT
      rw [findGroup_ensureGroup] at hcT2
      exact hcT2
    · split at hmem
      · next sender hfind =>
          obtain ⟨p, hpsub, hptop, hpne, hpa⟩ := mem_publishWs hmem
          simp only [Act.deliver.injEq] at hpa
          have hsend_mem : sender ∈ findGroup (ensureGroup st.registry db) db :=
            List.mem_of_find?_eq_some hfind
          rw [findGroup_ensureGroup] at hsend_mem
          have hsdb : sender.dbname = db := WFr.group_dbname hwf hsend_mem
          rcases hwf.2.2.2.2 p hpsub with htopall | ⟨c, hcReg, hch, hfrom⟩
          · exact absurd (hptop.symm.trans htopall) (fromTopic_ne_all _ _)
          · have hcdb_noh : '-' ∉ c.dbname := by
              obtain ⟨e, he, hce⟩ := mem_clientsOf.mp hcReg
              rw [hwf.2.1 e he c hce]
              exact hnoh e he
            have hsdb_noh : '-' ∉ sender.dbname := by
              rw [hsdb]
              obtain ⟨e, he, h1, hce⟩ := findGroup_mem hsend_mem
              rw [← h1]
              exact hnoh e he
            unfold isFromOf at hfrom
            rw [hptop] at hfrom
            have hdbeq : sender.dbname = c.dbname := fromTopic_group_inj hsdb_noh hcdb_noh hfrom
            have hcdb : c.dbname = db := by rw [← hdbeq, hsdb]
            obtain ⟨e, he, hce⟩ := mem_clientsOf.mp hcReg
            have hekey : e.1 = db := by rw [← hwf.2.1 e he c hce, hcdb]
            have hfg : findGroup st.registry db = e.2 := by
              rw [← hekey]
              exact findGroup_eq_of_mem hwf.1 he
            refine ⟨c, by rw [hfg]; exact hce, ?_⟩
            rw [hch, hpa.1]
      · simp at hmem

/-- Witness for the amended C2: both clients of `mydb` connected; the
broadcast sent by socket 1 is delivered only to sockets registered in
`mydb`. -/
theorem C2_amended_peer_frames_stay_in_group_witness :
    (WF (runState { maxPayload := 16384, token := none } initState
        [Ev.connect (jstr "mydb")
          { id := some (jstr "client1"), v := some (jstr "1.0.0"), t := none, msg := none } 1 100,
         Ev.connect (jstr "mydb")
          { id := some (jstr "client2"), v := some (jstr "1.0.0"), t := none, msg := none } 2 200])
      ∧ (∀ e ∈ (runState { maxPayload := 16384, token := none } initState
          [Ev.connect (jstr "mydb")
            { id := some (jstr "client1"), v := some (jstr "1.0.0"), t := none, msg := none } 1 100,
           Ev.connect (jstr "mydb")
            { id := some (jstr "client2"), v := some (jstr "1.0.0"), t := none, msg := none } 2 200]).registry,
          '-' ∉ e.1))
    ∧ ∃ c ∈ findGroup (runState { maxPayload := 16384, token := none } initState
        [Ev.connect (jstr "mydb")
          { id := some (jstr "client1"), v := some (jstr "1.0.0"), t := none, msg := none } 1 100,
         Ev.connect (jstr "mydb")
          { id := some (jstr "client2"), v := some (jstr "1.0.0"), t := none, msg := none } 2 200]).registry
        (jstr "mydb"), c.handle = 2 := by
  refine ⟨⟨by decide, by decide⟩, ?_⟩
  exact C2_amended_peer_frames_stay_in_group { maxPayload := 16384, token := none } _
    1 (jstr "mydb") (jstr "anybody there") 300 7 (by decide) (by decide)
    (by decide) 2 (jstr "anybody there") (by decide)

/-- C5: a `GET /{group}/receive` by a known peer with a valid token for a
spilled slot that is neither expired nor already taken answers the stored
payload and removes the slot; a retrieval of an absent slot answers
`404 Not Found` (hence a second identical retrieval does); a retrieval
strictly more than 60 seconds after the slot's creation — i.e. after its
deletion timer (fire time = creation + 60000 ms) has become due — answers
`404 Not Found`; and an absent slot id stays absent across any further
event unless that event's spill freshly generates the very same id, so a
slot is readable at most once. -/
theorem C5_slot_readable_once (cfg : Config) :
    (∀ (st : ServerState) (db : JStr) (q : Query) (now : Nat) (slotId payload : JStr),
      q.msg = some slotId →
      ((findGroup (ensureGroup st.registry db) db).find?
        (fun c => decide (some c.id = q.id))).isSome = true →
      tokenBadB cfg q.t = false →
      lookupSlot st.largeMessages slotId = some payload →
      (∀ ft, (ft, slotId) ∈ st.timers → ¬ ft < now) →
      (step cfg st (Ev.httpReceive db q now)).2 = [Act.httpResp (jstr "200") payload]
      ∧ lookupSlot (step cfg st (Ev.httpReceive db q now)).1.largeMessages slotId = none)
    ∧ (∀ (st : ServerState) (db : JStr) (q : Query) (now : Nat) (slotId : JStr),
      q.msg = some slotId →
      ((findGroup (ensureGroup st.registry db) db).find?
        (fun c => decide (some c.id = q.id))).isSome = true →
      tokenBadB cfg q.t = false →
      lookupSlot st.largeMessages slotId = none →
      (step cfg st (Ev.httpReceive db q now)).2
        = [Act.httpResp (jstr "404 Not Found") (jstr "Not Found")])
    ∧ (∀ (st : ServerState) (db : JStr) (q : Query) (now t0 : Nat) (slotId : JStr),
      q.msg = some slotId →
      ((findGroup (ensureGroup st.registry db) db).find?
        (fun c => decide (some c.id = q.id))).isSome = true →
      tokenBadB cfg q.t = false →
      (t0, slotId) ∈ st.timers → t0 < now →
      (step cfg st (Ev.httpReceive db q now)).2
        = [Act.httpResp (jstr "404 Not Found") (jstr "Not Found")])
    ∧ (∀ (st : ServerState) (e : Ev) (slotId : JStr),
      lookupSlot st.largeMessages slotId = none →
      lookupSlot (step cfg st e).1.largeMessages slotId = none
      ∨ ∃ now2 rand2, slotId = generateID now2 st.idSeq rand2) := by
  have hcondF : ∀ (st : ServerState) (db : JStr) (q : Query) (now : Nat),
      ((findGroup (ensureGroup st.registry db) db).find?
        (fun c => decide (some c.id = q.id))).isSome = true →
      tokenBadB cfg q.t = false →
      ((((findGroup (ensureGroup (fireTimers st now).registry db) db).find?
        (fun c => decide (some c.id = q.id))).isNone || tokenBadB cfg q.t) = false) := by
    intro st db q now hauth htok
    rw [fireTimers_registry, htok, Bool.or_false]
    cases hx : (findGroup (ensureGroup st.registry db) db).find?
        (fun c => decide (some c.id = q.id)) with
    | none => rw [hx] at hauth; simp at hauth
    | some c => rfl
  refine ⟨?_, ?_, ?_, ?_⟩
  · intro st db q now slotId payload hmsg hauth htok hslot hkeep
    have hlook : lookupSlot (fireTimers st now).largeMessages slotId = some payload := by
      rw [lookupSlot_fireTimers_keep (dueFor_eq_false hkeep)]
      exact hslot
    have hres : receiveStep cfg (fireTimers st now) db q
        = ({ ensureReg (fireTimers st now) db with
              largeMessages := removeSlot (fireTimers st now).largeMessages slotId },
           [Act.httpResp (jstr "200") payload]) := by
      unfold receiveStep
      rw [if_neg (by rw [hcondF st db q now hauth htok]; simp)]
      rw [hmsg]
      simp only [Option.getD_some]
      rw [hlook]
    constructor
    · show (receiveStep cfg (fireTimers st now) db q).2 = _
      rw [hres]
    · show lookupSlot (receiveStep cfg (fireTimers st now) db q).1.largeMessages slotId = none
      rw [hres]
      exact lookupSlot_removeSlot _ _
  · intro st db q now slotId hmsg hauth htok hslot
    have hlook : lookupSlot (fireTimers st now).largeMessages slotId = none :=
      lookupSlot_filter_none hslot
    show (receiveStep cfg (fireTimers st now) db q).2 = _
    unfold receiveStep
    rw [if_neg (by rw [hcondF st db q now hauth htok]; simp)]
    rw [hmsg]
    simp only [Option.getD_some]
    rw [hlook]
  · intro st db q now t0 slotId hmsg hauth htok hmem hlt
    have hlook : lookupSlot (fireTimers st now).largeMessages slotId = none :=
      lookupSlot_fireTimers_due (dueFor_of_mem hmem hlt)
    show (receiveStep cfg (fireTimers st now) db q).2 = _
    unfold receiveStep
    rw [if_neg (by rw [hcondF st db q now hauth htok]; simp)]
    rw [hmsg]
    simp only [Option.getD_some]
    rw [hlook]
  · intro st e slotId hnone
    cases e with
    | connect db q h now =>
        left
        show lookupSlot (connectStep cfg (fireTimers st now) db q h now).1.largeMessages
          slotId = none
        rw [connectStep_lm]
        exact lookupSlot_filter_none hnone
    | wsClose db h now =>
        left
        show lookupSlot (closeSocket (fireTimers st now) db h).1.largeMessages slotId = none
        rw [closeSocket_lm]
        exact lookupSlot_filter_none hnone
    | wsMessage db h fr now rand =>
        rcases handleIncoming_lm_cases cfg (fireTimers st now) h db fr now rand with hl | hl
        · left
          show lookupSlot (handleIncomingMessage cfg (fireTimers st now) h db fr
            now rand).1.largeMessages slotId = none
          rw [hl]
          exact lookupSlot_filter_none hnone
        · by_cases heq : slotId = generateID now (fireTimers st now).idSeq rand
          · exact Or.inr ⟨now, rand, heq⟩
          · left
            show lookupSlot (handleIncomingMessage cfg (fireTimers st now) h db fr
              now rand).1.largeMessages slotId = none
            rw [hl]
            exact lookup_putSlot_none (lookupSlot_filter_none hnone) heq
    | httpClients db now =>
        left
        exact lookupSlot_filter_none hnone
    | httpSend db q body now rand =>
        show lookupSlot (sendStep cfg (fireTimers st now) db q body now rand).1.largeMessages
            slotId = none ∨ _
        unfold sendStep
        split
        · exact Or.inl (lookupSlot_filter_none hnone)
        · next cl hfind =>
            split
            · exact Or.inl (lookupSlot_filter_none hnone)
            · rcases handleIncoming_lm_cases cfg (ensureReg (fireTimers st now) db)
                  cl.handle cl.dbname body now rand with hl | hl
              · left
                rw [hl]
                exact lookupSlot_filter_none hnone
              · by_cases heq : slotId
                    = generateID now (ensureReg (fireTimers st now) db).idSeq rand
                · exact Or.inr ⟨now, rand, heq⟩
                · left
                  rw [hl]
                  exact lookup_putSlot_none (lookupSlot_filter_none hnone) heq
    | httpReceive db q now =>
        left
        show lookupSlot (receiveStep cfg (fireTimers st now) db q).1.largeMessages
          slotId = none
        unfold receiveStep
        split
        · exact lookupSlot_filter_none hnone
        · split
          · exact lookupSlot_filter_none hnone
          · exact lookupSlot_filter_none (lookupSlot_filter_none hnone)

/-- Witness for C5: a stored slot is fetched once with the payload and
the slot is gone afterwards. -/
theorem C5_slot_readable_once_witness :
    (sampleSlotQuery.msg = some (jstr "slotA")
      ∧ ((findGroup (ensureGroup sampleSlotState.registry (jstr "mydb")) (jstr "mydb")).find?
          (fun c => decide (some c.id = sampleSlotQuery.id))).isSome = true)
    ∧ ((step { maxPayload := 50, token := none } sampleSlotState
        (Ev.httpReceive (jstr "mydb") sampleSlotQuery 2000)).2
        = [Act.httpResp (jstr "200") (jstr "BIGPAYLOAD")]
      ∧ lookupSlot (step { maxPayload := 50, token := none } sampleSlotState
          (Ev.httpReceive (jstr "mydb") sampleSlotQuery 2000)).1.largeMessages
          (jstr "slotA") = none) := by
  refine ⟨⟨rfl, by decide⟩, ?_⟩
  exact (C5_slot_readable_once { maxPayload := 50, token := none }).1
    sampleSlotState (jstr "mydb") sampleSlotQuery 2000 (jstr "slotA") (jstr "BIGPAYLOAD")
    rfl (by decide) (by decide) (by decide)
    (by
      intro ft hft
      simp only [sampleSlotState, List.mem_singleton, Prod.mk.injEq] at hft
      omega)
